import Mathlib

/-!
Verification development for the drug-mention graph engine
(`src/models/schemas.py`, `src/pipeline/transformers.py`, `src/utils/helpers.py`).

The Python code is shallowly embedded: pure functions become Lean functions,
the networkx `DiGraph` becomes an explicit structure of node and edge lists in
insertion order (Python dicts preserve insertion order, and since every edge
source in this program is a drug node added first and processed in node order,
networkx edge iteration order coincides with edge insertion order), and code
that can raise becomes `Except`-valued.  Python strings are modelled through
their character lists; `str.lower` is modelled on the ASCII fragment, which is
the fragment every identity-relevant value in this program lives in.
-/

namespace DrugGraph

/-! ### Python string primitives -/

/-- Python `s.lower()`, ASCII fragment (`Char.toLower` lowers exactly `A`-`Z`). -/
def pyLower (s : String) : String := ⟨s.data.map Char.toLower⟩

/-- Python slicing `s[:n]`. -/
def pyTake (s : String) (n : Nat) : String := ⟨s.data.take n⟩

/-- Python substring containment `needle in hay`. -/
def pyIn (needle hay : String) : Bool := decide (needle.data <:+: hay.data)

/-- Whitespace stripped by Python `str.strip()` (ASCII fragment). -/
def pyIsSpace (c : Char) : Bool :=
  c == ' ' || c == '\t' || c == '\n' || c == '\r' || c == Char.ofNat 11 || c == Char.ofNat 12

/-- Python `s.strip()`. -/
def pyStrip (s : String) : String :=
  ⟨((s.data.dropWhile pyIsSpace).reverse.dropWhile pyIsSpace).reverse⟩

/-- Truthiness of a Python string: non-empty. -/
def pyTruthy (s : String) : Bool := s != ""

/-- Truthiness of an optional Python string (`None` and `""` are falsy). -/
def pyTruthyOpt : Option String → Bool
  | none => false
  | some s => pyTruthy s

/-! ### Entity model (`src/models/schemas.py`) -/

/-- `PublicationType`: string enum with values `"pubmed"` and `"clinical_trial"`. -/
inductive PublicationType where
  | pubmed
  | clinical_trial
deriving DecidableEq, Repr

/-- String value of the enum member (a `str`-enum compares equal to its value). -/
def PublicationType.toStr : PublicationType → String
  | .pubmed => "pubmed"
  | .clinical_trial => "clinical_trial"

/-- `Drug` model: atccode and name. -/
structure Drug where
  atccode : String
  name : String
deriving DecidableEq, Repr

/-- `Publication` model: id, title, date, journal_name, source_type. -/
structure Publication where
  id : String
  title : String
  date : String
  journal_name : String
  source_type : PublicationType
deriving DecidableEq, Repr

/-- `Journal` model: name. -/
structure Journal where
  name : String
deriving DecidableEq, Repr

/-- `Publication.__eq__` exactly as written in the source: it compares id,
source_type, date, title and journal_name (its own docstring promises only
id and source_type). -/
def Publication.pyEq (p q : Publication) : Bool :=
  p.id == q.id && p.source_type == q.source_type && p.date == q.date
    && p.title == q.title && p.journal_name == q.journal_name

/-! ### The networkx `DiGraph` fragment used by the program

Node attributes are the keyword arguments the program ever passes to
`add_node`; a field holding `none` models the attribute key being absent (the
program only ever reads attributes through `dict.get`, which cannot tell an
absent key from a key stored with value `None`, so the conflation is
behaviour-preserving). -/

structure NodeAttrs where
  type : Option String := none
  atccode : Option String := none
  id : Option String := none
  title : Option String := none
  date : Option String := none
  journal_name : Option String := none
  name : Option String := none
deriving DecidableEq, Repr

def emptyAttrs : NodeAttrs := {}

/-- Dictionary update of one attribute: a provided (`some`) value overwrites. -/
def updField (old new : Option String) : Option String :=
  match new with
  | some v => some v
  | none => old

/-- `add_node` with an existing key updates the provided attributes and keeps the rest. -/
def mergeAttrs (old new : NodeAttrs) : NodeAttrs where
  type := updField old.type new.type
  atccode := updField old.atccode new.atccode
  id := updField old.id new.id
  title := updField old.title new.title
  date := updField old.date new.date
  journal_name := updField old.journal_name new.journal_name
  name := updField old.name new.name

structure Node where
  key : String
  attrs : NodeAttrs
deriving DecidableEq, Repr

structure Edge where
  src : String
  tgt : String
  relationship : Option String
  date_mention : Option String
deriving DecidableEq, Repr

structure Graph where
  nodes : List Node
  edges : List Edge
deriving DecidableEq, Repr

def Graph.empty : Graph := ⟨[], []⟩

def Graph.hasNode (g : Graph) (k : String) : Bool := g.nodes.any (fun n => n.key == k)

/-- networkx `add_node`: update attributes if the key exists, else append. -/
def Graph.addNode (g : Graph) (k : String) (a : NodeAttrs) : Graph :=
  if g.nodes.any (fun n => n.key == k) then
    { g with nodes := g.nodes.map fun n =>
        if n.key == k then { key := n.key, attrs := mergeAttrs n.attrs a } else n }
  else
    { g with nodes := g.nodes ++ [{ key := k, attrs := a }] }

/-- networkx `add_edge`: auto-create missing endpoints with no attributes, then
update the edge's attributes if the ordered pair already exists, else append.
Both keyword arguments are always passed at both call sites of this program,
so an update overwrites both attributes. -/
def Graph.addEdge (g : Graph) (s t : String) (rel dm : Option String) : Graph :=
  let g1 := if g.hasNode s then g else g.addNode s emptyAttrs
  let g2 := if g1.hasNode t then g1 else g1.addNode t emptyAttrs
  if g2.edges.any (fun e => e.src == s && e.tgt == t) then
    { g2 with edges := g2.edges.map fun e =>
        if e.src == s && e.tgt == t then
          { src := e.src, tgt := e.tgt, relationship := rel, date_mention := dm }
        else e }
  else
    { g2 with edges := g2.edges ++ [{ src := s, tgt := t, relationship := rel, date_mention := dm }] }

/-- `graph.out_edges(k)`: adjacency insertion order equals filtered insertion order here. -/
def Graph.outEdges (g : Graph) (k : String) : List Edge := g.edges.filter (fun e => e.src == k)

/-- `graph.nodes[k]` lookup (first, and with unique keys the only, match). -/
def Graph.findNode (g : Graph) (k : String) : Option Node := g.nodes.find? (fun n => n.key == k)

/-! ### Node identity scheme and the Graph Builder
(`DrugMentionGraphTransformer`, `src/pipeline/transformers.py`) -/

/-- Drug node key: `drug.name.lower()`. -/
def drugKey (d : Drug) : String := pyLower d.name

/-- Publication node key: `pub.title[:20].lower()`. -/
def pubKey (p : Publication) : String := pyLower (pyTake p.title 20)

/-- Journal node key: `journal.name[:20]` (case preserved). -/
def journalKey (name : String) : String := pyTake name 20

/-- The relationship constant used by every `add_edge` call of the builder. -/
def relLabel : String := "Référencé dans"

/-- The mention test of `_connect_drugs_to_publications`, phrased on the drug's
node key (`drug.name.lower()` is exactly `drugKey`):
`drug.name.lower() in pub.title.lower()`. -/
def matchK (dk : String) (p : Publication) : Bool := pyIn dk (pyLower p.title)

/-- `_extract_journals`: the distinct non-blank `journal_name` values.  Python
iterates a `set` in unspecified order; we fix first-occurrence order, and every
property proved below is insensitive to this choice. -/
def extract_journals (pubs : List Publication) : List Journal :=
  let names := (pubs.filter (fun p => pyTruthy p.journal_name && pyTruthy (pyStrip p.journal_name))).map
    (fun p => p.journal_name)
  (names.foldl (fun acc n => if n ∈ acc then acc else acc ++ [n]) []).map Journal.mk

def drugNodeAttrs (d : Drug) : NodeAttrs :=
  { type := some "drug", atccode := some d.atccode }

def pubNodeAttrs (p : Publication) : NodeAttrs :=
  { type := some p.source_type.toStr, id := some p.id, title := some p.title,
    date := some p.date, journal_name := some p.journal_name }

def journalNodeAttrs (j : Journal) : NodeAttrs :=
  { type := some "journal", name := some j.name }

/-- `_add_nodes_to_graph`: drug nodes, then publication nodes, then journal nodes. -/
def add_nodes_to_graph (g : Graph) (drugs : List Drug) (pubs : List Publication)
    (journals : List Journal) : Graph :=
  let g1 := drugs.foldl (fun g d => g.addNode (drugKey d) (drugNodeAttrs d)) g
  let g2 := pubs.foldl (fun g p => g.addNode (pubKey p) (pubNodeAttrs p)) g1
  journals.foldl (fun g j => g.addNode (journalKey j.name) (journalNodeAttrs j)) g2

/-- One step of the inner publication loop of `_connect_drugs_to_publications`.
The state is the graph together with the `drug_journal_connections` set
(modelled as a list used only through membership). -/
def connectStep (d : Drug) (st : Graph × List (String × String)) (p : Publication) :
    Graph × List (String × String) :=
  if matchK (drugKey d) p then
    let g1 := st.1.addEdge (drugKey d) (pubKey p) (some relLabel) (some p.date)
    let jk := journalKey p.journal_name
    if (drugKey d, jk) ∈ st.2 then (g1, st.2)
    else (g1.addEdge (drugKey d) jk (some relLabel) (some p.date), st.2 ++ [(drugKey d, jk)])
  else st

/-- `_connect_drugs_to_publications`: nested loop over drugs then publications. -/
def connect_drugs_to_publications (g : Graph) (drugs : List Drug)
    (pubs : List Publication) : Graph :=
  (drugs.foldl (fun st d => pubs.foldl (connectStep d) st) (g, [])).1

/-- `build_graph`: concatenate publications pubmed-then-trials, extract journals,
add all nodes, connect drugs to publications and journals. -/
def build_graph (drugs : List Drug) (pubmed_publications clinical_trials_publications :
    List Publication) : Graph :=
  let all_publications := pubmed_publications ++ clinical_trials_publications
  let journals := extract_journals all_publications
  let g := add_nodes_to_graph Graph.empty drugs all_publications journals
  connect_drugs_to_publications g drugs all_publications

/-! ### The document format (`save_graph_to_json` / `load_graph_from_json`,
`src/utils/helpers.py`)

A JSON object is modelled with `Option` fields: `none` is an absent key (the
loading path reads every key through `dict.get`).  File-system concerns (paths,
`open`, `json.dump`) are outside the embedding; the codec is the pure mapping
between graphs and documents that those functions compute. -/

structure DrugRec where
  atccode : Option String
  name : Option String
deriving DecidableEq, Repr

structure PubRec where
  id : Option String
  title : Option String
  date : Option String
  journal_name : Option String
  source_type : Option String
deriving DecidableEq, Repr

structure JournalRec where
  name : Option String
deriving DecidableEq, Repr

structure RelEnd where
  id : Option String
  type : Option String
deriving DecidableEq, Repr

structure RelRec where
  source : Option RelEnd
  target : Option RelEnd
  type : Option String
  date_mention : Option String
deriving DecidableEq, Repr

structure PublicationsDoc where
  pubmed : Option (List PubRec)
  clinical_trials : Option (List PubRec)
deriving DecidableEq, Repr

structure Document where
  drugs : Option (List DrugRec)
  publications : Option PublicationsDoc
  journals : Option (List JournalRec)
  relationships : Option (List RelRec)
deriving DecidableEq, Repr

/-- Node bucketing of `save_graph_to_json`: pydantic model construction raises
a validation error when a required `str` field is `None` (absent). -/
def exportNodeStep (acc : List DrugRec × List PubRec × List PubRec × List JournalRec)
    (n : Node) : Except String (List DrugRec × List PubRec × List PubRec × List JournalRec) :=
  let t := n.attrs.type
  if t == some "drug" then
    .ok ({ acc with fst := acc.1 ++ [{ atccode := some (n.attrs.atccode.getD ""), name := some n.key }] })
  else if t == some "pubmed" || t == some "clinical_trial" then
    match n.attrs.id, n.attrs.title, n.attrs.date, n.attrs.journal_name with
    | some i, some ti, some da, some j =>
      let rec_ : PubRec :=
        { id := some i, title := some ti, date := some da, journal_name := some j,
          source_type := some (if t == some "pubmed" then "pubmed" else "clinical_trial") }
      if t == some "pubmed" then .ok (acc.1, acc.2.1 ++ [rec_], acc.2.2.1, acc.2.2.2)
      else .ok (acc.1, acc.2.1, acc.2.2.1 ++ [rec_], acc.2.2.2)
    | _, _, _, _ => .error "ValidationError"
  else if t == some "journal" then
    match n.attrs.name with
    | some nm => .ok (acc.1, acc.2.1, acc.2.2.1, acc.2.2.2 ++ [{ name := some nm }])
    | none => .error "ValidationError"
  else .ok acc

/-- Relationship serialization of `save_graph_to_json`: drug sources are written
with their `atccode`, publication targets with their `id`, journal targets with
their full `name` attribute; anything else falls back to the node key. -/
def exportEdgeStep (g : Graph) (acc : List RelRec) (e : Edge) : Except String (List RelRec) :=
  match g.findNode e.src, g.findNode e.tgt with
  | some sn, some tn =>
    let source_type := sn.attrs.type
    let target_type := tn.attrs.type
    let source_id := if source_type == some "drug" then sn.attrs.atccode else some e.src
    let target_id :=
      if target_type == some "pubmed" || target_type == some "clinical_trial" then tn.attrs.id
      else if target_type == some "journal" then tn.attrs.name
      else some e.tgt
    .ok (acc ++ [{ source := some ⟨source_id, source_type⟩, target := some ⟨target_id, target_type⟩,
                   type := e.relationship, date_mention := e.date_mention }])
  | _, _ => .error "KeyError"

/-- `save_graph_to_json` as the pure graph-to-document mapping. -/
def save_graph_to_json (g : Graph) : Except String Document := do
  let buckets ← g.nodes.foldlM exportNodeStep ([], [], [], [])
  let rels ← g.edges.foldlM (exportEdgeStep g) []
  .ok { drugs := some buckets.1,
        publications := some ⟨some buckets.2.1, some buckets.2.2.1⟩,
        journals := some buckets.2.2.2,
        relationships := some rels }

/-- Import of one drug record: `drug.get("name").lower()` raises on a missing name. -/
def loadDrugRec (g : Graph) (r : DrugRec) : Except String Graph :=
  match r.name with
  | none => .error "AttributeError"
  | some nm => .ok (g.addNode (pyLower nm) { type := some "drug", atccode := r.atccode })

/-- Import of one publication record (`tstr` is `"pubmed"` or `"clinical_trial"`);
the title defaults to `""` via `pubmed.get("title", "")`. -/
def loadPubRec (tstr : String) (g : Graph) (r : PubRec) : Graph :=
  let title := r.title.getD ""
  g.addNode (pyLower (pyTake title 20))
    { type := some tstr, id := r.id, title := some title, date := r.date,
      journal_name := r.journal_name }

/-- Import of one journal record: `journal_name[:20]` raises on a missing name. -/
def loadJournalRec (g : Graph) (r : JournalRec) : Except String Graph :=
  match r.name with
  | none => .error "TypeError"
  | some nm => .ok (g.addNode (pyTake nm 20) { type := some "journal", name := some nm })

/-- Source resolution of the import path: a drug source is looked up by
`atccode` over the nodes (first match wins), anything else is truncated and
lower-cased, with Python string truthiness deciding `None`. -/
def resolveSource (g : Graph) (source_id source_type : Option String) : Option String :=
  if source_type == some "drug" then
    (g.nodes.find? (fun n => n.attrs.type == some "drug" && n.attrs.atccode == source_id)).map
      (fun n => n.key)
  else
    match source_id with
    | some s => if s == "" then none else some (pyLower (pyTake s 20))
    | none => none

/-- Target resolution of the import path: publications are looked up by `id`
over nodes of the matching type, a journal target id is truncated to 20
characters, anything else is used as-is. -/
def resolveTarget (g : Graph) (target_id target_type : Option String) : Option String :=
  if target_type == some "pubmed" || target_type == some "clinical_trial" then
    (g.nodes.find? (fun n => n.attrs.type == target_type && n.attrs.id == target_id)).map
      (fun n => n.key)
  else if target_type == some "journal" then
    match target_id with
    | some s => if s == "" then none else some (pyTake s 20)
    | none => none
  else target_id

/-- Import of one relationship record: the edge is added only when both
resolved endpoints are truthy and are existing nodes. -/
def loadRelRec (g : Graph) (r : RelRec) : Graph :=
  let source_info := r.source.getD ⟨none, none⟩
  let target_info := r.target.getD ⟨none, none⟩
  let source_node := resolveSource g source_info.id source_info.type
  let target_node := resolveTarget g target_info.id target_info.type
  if pyTruthyOpt source_node && pyTruthyOpt target_node
      && g.hasNode (source_node.getD "") && g.hasNode (target_node.getD "") then
    g.addEdge (source_node.getD "") (target_node.getD "") r.type r.date_mention
  else g

/-- `load_graph_from_json` as the pure document-to-graph mapping: each missing
top-level collection is read through `dict.get` with an empty default. -/
def load_graph_from_json (doc : Document) : Except String Graph := do
  let g0 := Graph.empty
  let g1 ← (doc.drugs.getD []).foldlM loadDrugRec g0
  let pubsDoc := doc.publications.getD ⟨none, none⟩
  let g2 := (pubsDoc.pubmed.getD []).foldl (loadPubRec "pubmed") g1
  let g3 := (pubsDoc.clinical_trials.getD []).foldl (loadPubRec "clinical_trial") g2
  let g4 ← (doc.journals.getD []).foldlM loadJournalRec g3
  .ok ((doc.relationships.getD []).foldl loadRelRec g4)

/-! ### Analytics (`find_journals_with_most_mentions_of_drug`)

The Python function takes a file path and re-loads the graph; the embedding
takes the already-loaded graph.  The counter dictionary is an insertion-ordered
association list, exactly like a Python `dict`. -/

/-- The two counting lines of the source, verbatim: a key not yet present is
first set to `1`, and then the key is incremented unconditionally. -/
def assocMentionStep (m : List (Option String × Nat)) (k : Option String) :
    List (Option String × Nat) :=
  let m1 := if m.any (fun p => p.1 == k) then m else m ++ [(k, 1)]
  m1.map (fun p => if p.1 == k then (p.1, p.2 + 1) else p)

/-- One out-edge of a drug node: count the target when it is a journal node. -/
def tallyStep (g : Graph) (m : List (Option String × Nat)) (e : Edge) :
    Except String (List (Option String × Nat)) :=
  match g.findNode e.tgt with
  | none => .error "KeyError"
  | some tn =>
    if tn.attrs.type == some "journal" then .ok (assocMentionStep m tn.attrs.name)
    else .ok m

def insertAsc (x : String) : List String → List String
  | [] => [x]
  | y :: ys => if decide (x ≤ y) then x :: y :: ys else y :: insertAsc x ys

/-- Python `list.sort()` on the tied journal names: ascending on strings, and a
`TypeError` when more than one element must be compared and a `None` is among
them (a journal node without a `name` attribute yields `None` here). -/
def pySortOpt (l : List (Option String)) : Except String (List (Option String)) :=
  if l.length ≤ 1 then .ok l
  else if l.all (fun x => x.isSome) then
    .ok (((l.filterMap id).foldl (fun acc x => insertAsc x acc) []).map some)
  else .error "TypeError"

/-- Body of `find_journals_with_most_mentions_of_drug` up to its `try`. -/
def find_journals_inner (g : Graph) (drug_name : String) :
    Except String (List (Option String) × Nat) := do
  let drug_nodes :=
    (g.nodes.filter (fun n => n.attrs.type == some "drug" && n.key == drug_name)).map
      (fun n => n.key)
  if drug_nodes.isEmpty then
    return ([some "No journals found"], 0)
  let journal_mentions ← drug_nodes.foldlM
    (fun m dn => (g.outEdges dn).foldlM (tallyStep g) m) []
  if journal_mentions.isEmpty then
    return ([some "No journals found"], 0)
  let max_mentions := journal_mentions.foldl (fun a p => Nat.max a p.2) 0
  let top := (journal_mentions.filter (fun p => p.2 == max_mentions)).map (fun p => p.1)
  let sorted ← pySortOpt top
  return (sorted, max_mentions)

/-- `find_journals_with_most_mentions_of_drug`: the surrounding `try` turns any
internal exception into the error sentinel. -/
def find_journals_with_most_mentions_of_drug (g : Graph) (drug_name : String) :
    List (Option String) × Nat :=
  match find_journals_inner g drug_name with
  | .ok r => r
  | .error _ => ([some "Error processing journals"], 0)

/-! ### Spec-side definitions

`firstMatch` renders the spec's phrase "the first qualifying publication
encountered during construction"; `wellFormed` renders "well-formed drug and
publication lists without truncation collisions" (§8 round-trip property). -/

/-- The first publication, in concatenated construction order, that the drug
with node key `dk` matches and whose journal node key is `jk`. -/
def firstMatch (dk jk : String) (pubs : List Publication) : Option Publication :=
  pubs.find? (fun p => matchK dk p && journalKey p.journal_name == jk)

/-- No publication node key coincides with a journal node key derived from a
publication of the same run (a truncation collision across kinds). -/
def noPubJournalCollision (pubs : List Publication) : Prop :=
  ∀ p ∈ pubs, ∀ q ∈ pubs, pubKey p ≠ journalKey q.journal_name

/-- Publication node keys are pairwise distinct and distinct from journal node
keys (the truncation collisions §4.2 of the spec warns about). -/
def noPubKeyCollision (pubs : List Publication) : Prop :=
  (pubs.map pubKey).Nodup ∧ noPubJournalCollision pubs


/-- The distinct journal names the builder will materialize as journal nodes. -/
def journalNames (pubs : List Publication) : List String :=
  (extract_journals pubs).map Journal.name

/-- Well-formed inputs without truncation collisions: distinct identities,
non-empty identity fields, non-blank journal names, distinct node keys within
and across kinds, and source tags consistent with the list each publication
arrives in. -/
def wellFormed (drugs : List Drug) (pubmed trials : List Publication) : Prop :=
  (drugs.map drugKey).Nodup
  ∧ (∀ d ∈ drugs, d.name ≠ "")
  ∧ (drugs.map Drug.atccode).Nodup
  ∧ ((pubmed ++ trials).map pubKey).Nodup
  ∧ (∀ p ∈ pubmed ++ trials, p.title ≠ "")
  ∧ ((pubmed ++ trials).map (fun p => (p.source_type, p.id))).Nodup
  ∧ (∀ p ∈ pubmed ++ trials,
      pyTruthy p.journal_name = true ∧ pyTruthy (pyStrip p.journal_name) = true)
  ∧ ((journalNames (pubmed ++ trials)).map journalKey).Nodup
  ∧ (∀ p ∈ pubmed, p.source_type = .pubmed)
  ∧ (∀ p ∈ trials, p.source_type = .clinical_trial)
  ∧ (∀ d ∈ drugs, ∀ p ∈ pubmed ++ trials, drugKey d ≠ pubKey p)
  ∧ (∀ d ∈ drugs, ∀ n ∈ journalNames (pubmed ++ trials), drugKey d ≠ journalKey n)
  ∧ (∀ p ∈ pubmed ++ trials, ∀ n ∈ journalNames (pubmed ++ trials), pubKey p ≠ journalKey n)

/-- Presence of an edge with the given ordered endpoint pair. -/
def hasEdgePair (g : Graph) (s t : String) : Bool :=
  g.edges.any (fun e => e.src == s && e.tgt == t)

/-- At most one edge per ordered node pair (a `DiGraph` is not a multigraph). -/
def pairsNodup (g : Graph) : Prop :=
  (g.edges.map (fun e => (e.src, e.tgt))).Nodup

/-- The date invariant tracked for a fixed (drug key, journal key) pair through
the connection loop: the dedup set is synchronized with edge presence, the
pair's edge (when present) carries the date of the first qualifying
publication of the whole run, and while absent no qualifying publication has
been scanned yet by a drug with that key. -/
def datePairInv (dk jk : String) (allp : List Publication)
    (st : Graph × List (String × String)) : Prop :=
  pairsNodup st.1
  ∧ ((dk, jk) ∈ st.2 ↔ hasEdgePair st.1 dk jk = true)
  ∧ (hasEdgePair st.1 dk jk = true →
      ∃ p₀, firstMatch dk jk allp = some p₀
        ∧ st.1.edges.filter (fun e => e.src == dk && e.tgt == jk)
            = [⟨dk, jk, some relLabel, some p₀.date⟩])


/-! ### Shape invariants of an exportable graph

These record exactly what the builder guarantees about a graph under
`wellFormed` inputs, and exactly what the codec needs for a faithful
round trip. -/

/-- A drug node as the builder writes it: typed `drug`, carrying an atccode,
keyed by a non-empty string fixed by `lower` (so re-lowering it on import is
the identity). -/
def isDrugNode (n : Node) : Prop :=
  (∃ c, n.attrs = { type := some "drug", atccode := some c })
  ∧ n.key ≠ "" ∧ pyLower n.key = n.key

/-- A publication node of tag `ty` as the builder writes it. -/
def isPubNodeOf (ty : String) (n : Node) : Prop :=
  (∃ i ti da j, n.attrs = { type := some ty, id := some i, title := some ti, date := some da, journal_name := some j }
    ∧ n.key = pyLower (pyTake ti 20))
  ∧ n.key ≠ ""

/-- A journal node as the builder writes it. -/
def isJournalNode (n : Node) : Prop :=
  (∃ nm, n.attrs = { type := some "journal", name := some nm } ∧ n.key = pyTake nm 20 ∧ nm ≠ "")
  ∧ n.key ≠ ""

/-- An exportable graph: nodes arranged drug/pubmed/clinical-trial/journal with
the builder's attribute shapes, globally distinct keys, distinct natural
identities per kind, no duplicate edge pairs, and edges from drug nodes to
publication or journal nodes. -/
def Exportable (G : Graph) : Prop :=
  ∃ dN pmN ctN jN,
    G.nodes = dN ++ pmN ++ ctN ++ jN
    ∧ (∀ n ∈ dN, isDrugNode n)
    ∧ (∀ n ∈ pmN, isPubNodeOf "pubmed" n)
    ∧ (∀ n ∈ ctN, isPubNodeOf "clinical_trial" n)
    ∧ (∀ n ∈ jN, isJournalNode n)
    ∧ (G.nodes.map Node.key).Nodup
    ∧ (dN.map (fun n => n.attrs.atccode)).Nodup
    ∧ ((pmN ++ ctN).map (fun n => (n.attrs.type, n.attrs.id))).Nodup
    ∧ pairsNodup G
    ∧ (∀ e ∈ G.edges, (∃ n ∈ dN, e.src = n.key) ∧ (∃ n ∈ pmN ++ ctN ++ jN, e.tgt = n.key))

/-- The node the builder writes for a drug. -/
def mkDrugNode (d : Drug) : Node := ⟨drugKey d, drugNodeAttrs d⟩

/-- The node the builder writes for a publication. -/
def mkPubNode (p : Publication) : Node := ⟨pubKey p, pubNodeAttrs p⟩

/-- The node the builder writes for a journal. -/
def mkJournalNode (j : Journal) : Node := ⟨journalKey j.name, journalNodeAttrs j⟩

/-- The drug record `save_graph_to_json` writes for a drug node. -/
def toDrugRec (n : Node) : DrugRec :=
  { atccode := some (n.attrs.atccode.getD ""), name := some n.key }

/-- The publication record `save_graph_to_json` writes for a publication node. -/
def toPubRec (ty : String) (n : Node) : PubRec :=
  { id := n.attrs.id, title := n.attrs.title, date := n.attrs.date,
    journal_name := n.attrs.journal_name, source_type := some ty }

/-- The journal record `save_graph_to_json` writes for a journal node. -/
def toJournalRec (n : Node) : JournalRec := { name := n.attrs.name }

/-- How an exported relationship record relates to the edge it was written
from: it carries the edge's attributes, the source drug's atccode, and the
target's natural identity (publication id, or full journal name). -/
def relMatches (G : Graph) (e : Edge) (r : RelRec) : Prop :=
  r.type = e.relationship ∧ r.date_mention = e.date_mention
  ∧ (∃ sn, G.findNode e.src = some sn ∧ sn.attrs.type = some "drug"
      ∧ r.source = some ⟨sn.attrs.atccode, some "drug"⟩)
  ∧ (∃ tn, G.findNode e.tgt = some tn
      ∧ (((tn.attrs.type = some "pubmed" ∨ tn.attrs.type = some "clinical_trial")
            ∧ r.target = some ⟨tn.attrs.id, tn.attrs.type⟩)
         ∨ (tn.attrs.type = some "journal" ∧ r.target = some ⟨tn.attrs.name, some "journal"⟩)))

/-! ### Concrete inputs used by the concrete theorems -/

/-- The scenario of §8: one drug, one pubmed publication, no trials. -/
def scenarioDrugs : List Drug := [⟨"A1", "Epinephrine"⟩]

def scenarioPubmed : List Publication :=
  [⟨"1", "Epinephrine use in anaphylaxis", "2020-01-01", "NEJM", .pubmed⟩]

def scenarioGraph : Graph := build_graph scenarioDrugs scenarioPubmed []

/-- Inputs with a publication/journal truncation collision: the second title
truncates and lower-cases to `"nejm"`, the journal key of the first. -/
def collisionDrugs : List Drug := [⟨"D1", "e"⟩]

def collisionPubs : List Publication :=
  [⟨"1", "e x", "2020-01-01", "nejm", .pubmed⟩,
   ⟨"2", "Nejm", "2021-05-05", "other", .pubmed⟩]

def collisionGraph : Graph := build_graph collisionDrugs collisionPubs []

/-- Same collision, with a drug that matches only the first publication. -/
def collision2Drugs : List Drug := [⟨"D1", "x"⟩]

def collision2Pubs : List Publication :=
  [⟨"1", "x a", "2020-01-01", "nejm", .pubmed⟩,
   ⟨"2", "NEJM", "2021-05-05", "other", .pubmed⟩]

def collision2Graph : Graph := build_graph collision2Drugs collision2Pubs []

/-- The substring-policy pair of §8: drug "amphetamine", a Dextroamphetamine title. -/
def amphetamineDrug : Drug := ⟨"A2", "amphetamine"⟩

def dextroPub : Publication :=
  ⟨"7", "Dextroamphetamine is effective", "2020-03-01", "JPP", .pubmed⟩

/-- A matched publication with a blank journal name. -/
def blankJournalGraph : Graph :=
  build_graph [⟨"A1", "e"⟩] [⟨"1", "e x", "2020-01-01", "", .pubmed⟩] []

/-- A journal whose name is longer than 20 characters. -/
def longJournalName : String := "Journal of Pharmacological Innovations"

def longJournalGraph : Graph :=
  build_graph [⟨"A1", "e"⟩] [⟨"1", "e x", "2020-01-01", longJournalName, .pubmed⟩] []

/-- A document whose `drugs` collection is absent. -/
def missingDrugsDoc : Document :=
  { drugs := none,
    publications := some ⟨some [⟨some "1", some "T x", some "2020-01-01", some "J", some "pubmed"⟩],
                          some []⟩,
    journals := some [⟨some "J"⟩],
    relationships := some [] }

/-- Two publications agreeing on `(id, source_type)` and differing in title. -/
def pubTitleOne : Publication := ⟨"1", "Title one", "2020-01-01", "NEJM", .pubmed⟩

def pubTitleTwo : Publication := ⟨"1", "Title two", "2020-01-01", "NEJM", .pubmed⟩

/-! ## Theorems -/

/-! ### Basic properties of the graph operations -/

theorem edges_addNode (g : Graph) (k : String) (a : NodeAttrs) :
    (g.addNode k a).edges = g.edges := by
  unfold Graph.addNode
  split <;> rfl

theorem nodes_addNode_fresh (g : Graph) (k : String) (a : NodeAttrs)
    (h : g.hasNode k = false) : (g.addNode k a).nodes = g.nodes ++ [⟨k, a⟩] := by
  unfold Graph.addNode
  simp only [Graph.hasNode] at h
  rw [if_neg (fun hc => absurd (hc ▸ h) (by decide))]

theorem keys_addNode_existing (g : Graph) (k : String) (a : NodeAttrs)
    (h : g.hasNode k = true) :
    (g.addNode k a).nodes.map Node.key = g.nodes.map Node.key := by
  unfold Graph.addNode
  simp only [Graph.hasNode] at h
  rw [if_pos h, List.map_map]
  apply List.map_congr_left
  intro n _
  by_cases hk : (n.key == k) = true <;> simp [hk, Function.comp]

theorem hasNode_iff_mem_keys (g : Graph) (k : String) :
    g.hasNode k = true ↔ k ∈ g.nodes.map Node.key := by
  unfold Graph.hasNode
  simp only [List.any_eq_true, beq_iff_eq, List.mem_map]

theorem hasNode_addNode_iff (g : Graph) (k : String) (a : NodeAttrs) (k' : String) :
    (g.addNode k a).hasNode k' = true ↔ (g.hasNode k' = true ∨ k' = k) := by
  cases hb : g.hasNode k with
  | true =>
    rw [hasNode_iff_mem_keys, keys_addNode_existing g k a hb, ← hasNode_iff_mem_keys]
    constructor
    · exact Or.inl
    · rintro (h' | rfl)
      · exact h'
      · exact hb
  | false =>
    rw [hasNode_iff_mem_keys, nodes_addNode_fresh g k a hb, List.map_append,
      List.mem_append, ← hasNode_iff_mem_keys]
    simp

theorem nodes_addEdge_of_hasNode (g : Graph) (s t : String) (r dm : Option String)
    (hs : g.hasNode s = true) (ht : g.hasNode t = true) :
    (g.addEdge s t r dm).nodes = g.nodes := by
  unfold Graph.addEdge
  simp only [hs, ht, if_true]
  split <;> rfl

theorem edges_addEdge_of_hasNode (g : Graph) (s t : String) (r dm : Option String)
    (hs : g.hasNode s = true) (ht : g.hasNode t = true) :
    (g.addEdge s t r dm).edges
      = (if g.edges.any (fun e => e.src == s && e.tgt == t) then
          g.edges.map fun e => if e.src == s && e.tgt == t then
            { src := e.src, tgt := e.tgt, relationship := r, date_mention := dm } else e
        else g.edges ++ [{ src := s, tgt := t, relationship := r, date_mention := dm }]) := by
  unfold Graph.addEdge
  simp only [hs, ht, if_true]
  split <;> rfl

theorem edges_addEdge (g : Graph) (s t : String) (r dm : Option String) :
    (g.addEdge s t r dm).edges =
      (if g.edges.any (fun e => e.src == s && e.tgt == t) then
        g.edges.map fun e => if e.src == s && e.tgt == t then
          { src := e.src, tgt := e.tgt, relationship := r, date_mention := dm } else e
      else g.edges ++ [{ src := s, tgt := t, relationship := r, date_mention := dm }]) := by
  simp only [Graph.addEdge, apply_ite Graph.edges, edges_addNode, ite_self]

/-- The attribute update of an existing edge does not change its endpoints, so
any endpoint test is unaffected. -/
theorem pair_pred_update (s t : String) (r dm : Option String) (a b : String) (e : Edge) :
    (((if e.src == s && e.tgt == t then
        ({ src := e.src, tgt := e.tgt, relationship := r, date_mention := dm } : Edge)
      else e).src == a)
      && ((if e.src == s && e.tgt == t then
        ({ src := e.src, tgt := e.tgt, relationship := r, date_mention := dm } : Edge)
      else e).tgt == b))
      = ((e.src == a) && (e.tgt == b)) := by
  by_cases h2 : (e.src == s && e.tgt == t) = true <;> simp [h2]

theorem any_congr_mem {α : Type} (l : List α) (p q : α → Bool) (h : ∀ x ∈ l, p x = q x) :
    l.any p = l.any q := by
  induction l with
  | nil => rfl
  | cons a l ih =>
    simp only [List.any_cons]
    rw [h a (List.mem_cons_self a l), ih (fun x hx => h x (List.mem_cons_of_mem a hx))]

theorem any_pair_map_update (l : List Edge) (s t : String) (r dm : Option String)
    (a b : String) :
    (l.map fun e => if e.src == s && e.tgt == t then
        ({ src := e.src, tgt := e.tgt, relationship := r, date_mention := dm } : Edge) else e).any
      (fun e => e.src == a && e.tgt == b)
    = l.any (fun e => e.src == a && e.tgt == b) := by
  rw [List.any_map]
  apply any_congr_mem
  intro e _
  simp only [Function.comp]
  exact pair_pred_update s t r dm a b e

theorem filter_pair_map_update (l : List Edge) (s t : String) (r dm : Option String)
    (a b : String) :
    (l.map fun e => if e.src == s && e.tgt == t then
        ({ src := e.src, tgt := e.tgt, relationship := r, date_mention := dm } : Edge) else e).filter
      (fun e => e.src == a && e.tgt == b)
    = (l.filter (fun e => e.src == a && e.tgt == b)).map fun e =>
        if e.src == s && e.tgt == t then
          ({ src := e.src, tgt := e.tgt, relationship := r, date_mention := dm } : Edge) else e := by
  induction l with
  | nil => rfl
  | cons e l ih =>
    simp only [List.map_cons, List.filter_cons, pair_pred_update s t r dm a b e]
    by_cases hp : (e.src == a && e.tgt == b) = true
    · rw [if_pos hp, if_pos hp, List.map_cons, ih]
    · rw [if_neg hp, if_neg hp, ih]

theorem hasEdgePair_addEdge_iff (g : Graph) (s t : String) (r dm : Option String)
    (a b : String) :
    hasEdgePair (g.addEdge s t r dm) a b = true
      ↔ (hasEdgePair g a b = true ∨ (a = s ∧ b = t)) := by
  unfold hasEdgePair
  rw [edges_addEdge]
  split
  · next hc =>
    rw [any_pair_map_update]
    constructor
    · exact Or.inl
    · rintro (h | ⟨rfl, rfl⟩)
      · exact h
      · exact hc
  · next hc =>
    rw [List.any_append]
    simp only [List.any_cons, List.any_nil, Bool.or_false, Bool.or_eq_true,
      Bool.and_eq_true, beq_iff_eq]
    constructor
    · rintro (h | ⟨h1, h2⟩)
      · exact Or.inl h
      · exact Or.inr ⟨h1.symm, h2.symm⟩
    · rintro (h | ⟨rfl, rfl⟩)
      · exact Or.inl h
      · exact Or.inr ⟨rfl, rfl⟩

theorem hasEdgePair_addEdge_of_mem (g : Graph) (s t : String) (r dm : Option String)
    (a b : String) (h : hasEdgePair g a b = true) :
    hasEdgePair (g.addEdge s t r dm) a b = true :=
  (hasEdgePair_addEdge_iff g s t r dm a b).mpr (Or.inl h)

theorem hasEdgePair_addEdge_self (g : Graph) (s t : String) (r dm : Option String) :
    hasEdgePair (g.addEdge s t r dm) s t = true :=
  (hasEdgePair_addEdge_iff g s t r dm s t).mpr (Or.inr ⟨rfl, rfl⟩)

theorem filter_pair_addEdge_of_ne (g : Graph) (s t : String) (r dm : Option String)
    (a b : String) (h : ¬(s = a ∧ t = b)) :
    (g.addEdge s t r dm).edges.filter (fun e => e.src == a && e.tgt == b)
      = g.edges.filter (fun e => e.src == a && e.tgt == b) := by
  rw [edges_addEdge]
  split
  · rw [filter_pair_map_update]
    have hid : ∀ e ∈ g.edges.filter (fun e => e.src == a && e.tgt == b),
        (if e.src == s && e.tgt == t then
          ({ src := e.src, tgt := e.tgt, relationship := r, date_mention := dm } : Edge)
        else e) = id e := by
      intro e he
      have hp := List.of_mem_filter he
      simp only [Bool.and_eq_true, beq_iff_eq] at hp
      rw [if_neg]
      · rfl
      · simp only [Bool.and_eq_true, beq_iff_eq]
        rintro ⟨rfl, rfl⟩
        exact h ⟨hp.1, hp.2⟩
    rw [List.map_congr_left hid, List.map_id]
  · rw [List.filter_append]
    have hnil : List.filter (fun e => e.src == a && e.tgt == b)
        [({ src := s, tgt := t, relationship := r, date_mention := dm } : Edge)] = [] := by
      rw [List.filter_eq_nil_iff]
      intro x hx
      rcases List.mem_singleton.mp hx with rfl
      simp only [Bool.and_eq_true, beq_iff_eq]
      rintro ⟨rfl, rfl⟩
      exact h ⟨rfl, rfl⟩
    rw [hnil, List.append_nil]

/-- In an edge list without duplicate endpoint pairs, filtering for a present
pair yields exactly one edge, and that edge has those endpoints. -/
theorem filter_pair_singleton (l : List Edge) (s t : String)
    (hnd : (l.map (fun e => (e.src, e.tgt))).Nodup)
    (hex : l.any (fun e => e.src == s && e.tgt == t) = true) :
    ∃ e₀, l.filter (fun e => e.src == s && e.tgt == t) = [e₀] ∧ e₀.src = s ∧ e₀.tgt = t := by
  induction l with
  | nil => simp at hex
  | cons e l ih =>
    simp only [List.map_cons, List.nodup_cons] at hnd
    rw [List.filter_cons]
    by_cases hp : (e.src == s && e.tgt == t) = true
    · have hpe : e.src = s ∧ e.tgt = t := by
        simpa only [Bool.and_eq_true, beq_iff_eq] using hp
      refine ⟨e, ?_, hpe.1, hpe.2⟩
      rw [if_pos hp]
      have hfe : l.filter (fun e => e.src == s && e.tgt == t) = [] := by
        rw [List.filter_eq_nil_iff]
        intro x hx hcx
        have hxe : x.src = s ∧ x.tgt = t := by
          simpa only [Bool.and_eq_true, beq_iff_eq] using hcx
        exact hnd.1 (by
          rw [← hpe.1, ← hpe.2] at hxe
          exact List.mem_map.mpr ⟨x, hx, by rw [hxe.1, hxe.2]⟩)
      rw [hfe]
    · rw [if_neg hp]
      apply ih hnd.2
      rcases List.any_eq_true.mp hex with ⟨x, hx, hcx⟩
      rcases List.mem_cons.mp hx with rfl | hx'
      · exact absurd hcx hp
      · exact List.any_eq_true.mpr ⟨x, hx', hcx⟩

theorem filter_pair_addEdge_self (g : Graph) (s t : String) (r dm : Option String)
    (hnd : pairsNodup g) :
    (g.addEdge s t r dm).edges.filter (fun e => e.src == s && e.tgt == t)
      = [{ src := s, tgt := t, relationship := r, date_mention := dm }] := by
  rw [edges_addEdge]
  split
  · next hc =>
    rw [filter_pair_map_update]
    obtain ⟨e₀, hfil, hs, ht⟩ := filter_pair_singleton g.edges s t hnd hc
    rw [hfil]
    simp only [List.map_cons, List.map_nil]
    rw [if_pos (by simp [hs, ht]), hs, ht]
  · next hc =>
    rw [List.filter_append]
    have h1 : g.edges.filter (fun e => e.src == s && e.tgt == t) = [] := by
      rw [List.filter_eq_nil_iff]
      intro x hx hcx
      exact absurd (List.any_eq_true.mpr ⟨x, hx, hcx⟩) hc
    rw [h1, List.nil_append, List.filter_cons, if_pos (by simp), List.filter_nil]

theorem pairsNodup_addNode (g : Graph) (k : String) (a : NodeAttrs)
    (h : pairsNodup g) : pairsNodup (g.addNode k a) := by
  unfold pairsNodup
  rw [edges_addNode]
  exact h

theorem pairsNodup_addEdge (g : Graph) (s t : String) (r dm : Option String)
    (h : pairsNodup g) : pairsNodup (g.addEdge s t r dm) := by
  unfold pairsNodup
  rw [edges_addEdge]
  split
  · next hc =>
    rw [List.map_map]
    have : ∀ e ∈ g.edges,
        ((fun e => (e.src, e.tgt)) ∘ fun e => if e.src == s && e.tgt == t then
          ({ src := e.src, tgt := e.tgt, relationship := r, date_mention := dm } : Edge) else e) e
          = (fun e => (e.src, e.tgt)) e := by
      intro e _
      simp only [Function.comp]
      by_cases h2 : (e.src == s && e.tgt == t) = true
      · rw [if_pos h2]
      · rw [if_neg h2]
    rw [List.map_congr_left this]
    exact h
  · next hc =>
    rw [List.map_append]
    rw [List.nodup_append]
    refine ⟨h, by simp, ?_⟩
    intro x hx
    simp only [List.map_cons, List.map_nil, List.mem_singleton]
    rintro rfl
    rcases List.mem_map.mp hx with ⟨e, he, hpe⟩
    apply absurd (List.any_eq_true.mpr ⟨e, he, ?_⟩) hc
    have h1 : e.src = s := congrArg Prod.fst hpe
    have h2 : e.tgt = t := congrArg Prod.snd hpe
    simp [h1, h2]

/-! ### Fold invariants -/

theorem foldl_preserve {σ α : Type} (Inv : σ → Prop) (f : σ → α → σ) :
    ∀ (l : List α) (s : σ), Inv s → (∀ s' a, a ∈ l → Inv s' → Inv (f s' a)) →
      Inv (l.foldl f s)
  | [], _, h, _ => h
  | a :: l, s, h, hstep =>
    foldl_preserve Inv f l (f s a) (hstep s a (List.mem_cons_self a l) h)
      (fun s' a' ha' h' => hstep s' a' (List.mem_cons_of_mem a ha') h')

theorem edges_foldl_addNode {α : Type} (key : α → String) (attrs : α → NodeAttrs) :
    ∀ (l : List α) (g : Graph),
      (l.foldl (fun g x => g.addNode (key x) (attrs x)) g).edges = g.edges
  | [], _ => rfl
  | x :: l, g => by
    rw [List.foldl_cons, edges_foldl_addNode key attrs l, edges_addNode]

theorem edges_add_nodes_to_graph (g : Graph) (drugs : List Drug)
    (pubs : List Publication) (journals : List Journal) :
    (add_nodes_to_graph g drugs pubs journals).edges = g.edges := by
  unfold add_nodes_to_graph
  rw [edges_foldl_addNode (fun j => journalKey j.name) journalNodeAttrs,
    edges_foldl_addNode pubKey pubNodeAttrs, edges_foldl_addNode drugKey drugNodeAttrs]

/-- Every `add_edge` of this program writes the same relationship constant, and
the update path rewrites it to the same constant, so the property is stable. -/
theorem edges_rel_addEdge (g : Graph) (s t : String) (dm : Option String)
    (h : ∀ e ∈ g.edges, e.relationship = some relLabel) :
    ∀ e ∈ (g.addEdge s t (some relLabel) dm).edges, e.relationship = some relLabel := by
  intro e he
  rw [edges_addEdge] at he
  split at he
  · rcases List.mem_map.mp he with ⟨x, hx, rfl⟩
    by_cases h2 : (x.src == s && x.tgt == t) = true
    · rw [if_pos h2]
    · rw [if_neg h2]
      exact h x hx
  · rcases List.mem_append.mp he with hx | hx
    · exact h e hx
    · rcases List.mem_singleton.mp hx with rfl
      rfl

theorem edges_rel_connectStep (d : Drug) (st : Graph × List (String × String))
    (p : Publication) (h : ∀ e ∈ st.1.edges, e.relationship = some relLabel) :
    ∀ e ∈ (connectStep d st p).1.edges, e.relationship = some relLabel := by
  unfold connectStep
  by_cases hm : matchK (drugKey d) p = true
  · rw [if_pos hm]
    by_cases hs : (drugKey d, journalKey p.journal_name) ∈ st.2
    · rw [if_pos hs]
      exact edges_rel_addEdge st.1 (drugKey d) (pubKey p) (some p.date) h
    · rw [if_neg hs]
      exact edges_rel_addEdge _ (drugKey d) (journalKey p.journal_name) (some p.date)
        (edges_rel_addEdge st.1 (drugKey d) (pubKey p) (some p.date) h)
  · rw [if_neg hm]
    exact h

/-- C6 amended: every edge of every graph the builder produces carries the
relationship constant `"Référencé dans"` (not `"mentioned_in"`). -/
theorem C6_relationship_constant (drugs : List Drug)
    (pubmed trials : List Publication) :
    ∀ e ∈ (build_graph drugs pubmed trials).edges, e.relationship = some relLabel := by
  unfold build_graph connect_drugs_to_publications
  have h0 : ∀ e ∈ (add_nodes_to_graph Graph.empty drugs (pubmed ++ trials)
      (extract_journals (pubmed ++ trials))).edges, e.relationship = some relLabel := by
    rw [edges_add_nodes_to_graph]
    intro e he
    cases he
  exact foldl_preserve (fun st => ∀ e ∈ st.1.edges, e.relationship = some relLabel)
    _ drugs
    (add_nodes_to_graph Graph.empty drugs (pubmed ++ trials)
      (extract_journals (pubmed ++ trials)), ([] : List (String × String))) h0
    (fun st d _ h => foldl_preserve _ (connectStep d) (pubmed ++ trials) st h
      (fun st' p _ h' => edges_rel_connectStep d st' p h'))

/-- C6 witness: the first edge of the scenario graph carries the constant. -/
theorem C6_witness :
    Edge.relationship ⟨"epinephrine", "epinephrine use in a", some relLabel, some "2020-01-01"⟩
      = some relLabel :=
  C6_relationship_constant scenarioDrugs scenarioPubmed []
    ⟨"epinephrine", "epinephrine use in a", some relLabel, some "2020-01-01"⟩ (by decide)

theorem hasNode_eq_of_nodes (g g' : Graph) (h : g.nodes = g'.nodes) (k : String) :
    g.hasNode k = g'.hasNode k := by
  unfold Graph.hasNode
  rw [h]

theorem hasNode_foldl_addNode_mono {α : Type} (key : α → String) (attrs : α → NodeAttrs) :
    ∀ (l : List α) (g : Graph) (k : String), g.hasNode k = true →
      (l.foldl (fun g x => g.addNode (key x) (attrs x)) g).hasNode k = true
  | [], _, _, h => h
  | x :: l, g, k, h => by
    rw [List.foldl_cons]
    exact hasNode_foldl_addNode_mono key attrs l _ k
      ((hasNode_addNode_iff g (key x) (attrs x) k).mpr (Or.inl h))

theorem hasNode_foldl_addNode_of_mem {α : Type} (key : α → String) (attrs : α → NodeAttrs) :
    ∀ (l : List α) (g : Graph) (x : α), x ∈ l →
      (l.foldl (fun g y => g.addNode (key y) (attrs y)) g).hasNode (key x) = true
  | [], _, _, hx => absurd hx (List.not_mem_nil _)
  | y :: l, g, x, hx => by
    rw [List.foldl_cons]
    rcases List.mem_cons.mp hx with rfl | hx'
    · exact hasNode_foldl_addNode_mono key attrs l _ _
        ((hasNode_addNode_iff g (key x) (attrs x) (key x)).mpr (Or.inr rfl))
    · exact hasNode_foldl_addNode_of_mem key attrs l _ x hx'

theorem hasNode_add_nodes_drug (g : Graph) (drugs : List Drug) (pubs : List Publication)
    (journals : List Journal) (d : Drug) (hd : d ∈ drugs) :
    (add_nodes_to_graph g drugs pubs journals).hasNode (drugKey d) = true := by
  unfold add_nodes_to_graph
  exact hasNode_foldl_addNode_mono (fun j => journalKey j.name) journalNodeAttrs journals _ _
    (hasNode_foldl_addNode_mono pubKey pubNodeAttrs pubs _ _
      (hasNode_foldl_addNode_of_mem drugKey drugNodeAttrs drugs g d hd))

theorem hasNode_add_nodes_pub (g : Graph) (drugs : List Drug) (pubs : List Publication)
    (journals : List Journal) (p : Publication) (hp : p ∈ pubs) :
    (add_nodes_to_graph g drugs pubs journals).hasNode (pubKey p) = true := by
  unfold add_nodes_to_graph
  exact hasNode_foldl_addNode_mono (fun j => journalKey j.name) journalNodeAttrs journals _ _
    (hasNode_foldl_addNode_of_mem pubKey pubNodeAttrs pubs _ p hp)

theorem hasNode_add_nodes_journal (g : Graph) (drugs : List Drug) (pubs : List Publication)
    (journals : List Journal) (j : Journal) (hj : j ∈ journals) :
    (add_nodes_to_graph g drugs pubs journals).hasNode (journalKey j.name) = true := by
  unfold add_nodes_to_graph
  exact hasNode_foldl_addNode_of_mem (fun j => journalKey j.name) journalNodeAttrs journals _ j hj

/-- When every endpoint referenced by the connection loop already exists as a
node, `add_edge` never auto-creates nodes and the node list is unchanged. -/
theorem nodes_connect (g₀ : Graph) (drugs : List Drug) (pubs : List Publication)
    (hd : ∀ d ∈ drugs, g₀.hasNode (drugKey d) = true)
    (hp : ∀ p ∈ pubs, g₀.hasNode (pubKey p) = true)
    (hj : ∀ d ∈ drugs, ∀ p ∈ pubs, matchK (drugKey d) p = true →
      g₀.hasNode (journalKey p.journal_name) = true) :
    (connect_drugs_to_publications g₀ drugs pubs).nodes = g₀.nodes := by
  unfold connect_drugs_to_publications
  have h0 : ((g₀, ([] : List (String × String)))).1.nodes = g₀.nodes := rfl
  refine foldl_preserve (fun st => st.1.nodes = g₀.nodes)
    (fun st d => pubs.foldl (connectStep d) st) drugs (g₀, []) h0 ?_
  intro st d hd' hInv
  refine foldl_preserve (fun st => st.1.nodes = g₀.nodes) (connectStep d) pubs st hInv ?_
  intro st' p hp' hInv'
  unfold connectStep
  by_cases hm : matchK (drugKey d) p = true
  · rw [if_pos hm]
    have h1 : st'.1.hasNode (drugKey d) = true := by
      rw [hasNode_eq_of_nodes st'.1 g₀ hInv']
      exact hd d hd'
    have h2 : st'.1.hasNode (pubKey p) = true := by
      rw [hasNode_eq_of_nodes st'.1 g₀ hInv']
      exact hp p hp'
    have hnodes1 : (st'.1.addEdge (drugKey d) (pubKey p) (some relLabel) (some p.date)).nodes
        = st'.1.nodes := nodes_addEdge_of_hasNode st'.1 _ _ _ _ h1 h2
    by_cases hs : (drugKey d, journalKey p.journal_name) ∈ st'.2
    · rw [if_pos hs]
      show (st'.1.addEdge (drugKey d) (pubKey p) (some relLabel) (some p.date)).nodes = g₀.nodes
      rw [hnodes1, hInv']
    · rw [if_neg hs]
      have h3 : (st'.1.addEdge (drugKey d) (pubKey p) (some relLabel) (some p.date)).hasNode
          (drugKey d) = true := by
        rw [hasNode_eq_of_nodes _ st'.1 hnodes1]
        exact h1
      have h4 : (st'.1.addEdge (drugKey d) (pubKey p) (some relLabel) (some p.date)).hasNode
          (journalKey p.journal_name) = true := by
        rw [hasNode_eq_of_nodes _ st'.1 hnodes1, hasNode_eq_of_nodes st'.1 g₀ hInv']
        exact hj d hd' p hp' hm
      show ((st'.1.addEdge (drugKey d) (pubKey p) (some relLabel) (some p.date)).addEdge
          (drugKey d) (journalKey p.journal_name) (some relLabel) (some p.date)).nodes = g₀.nodes
      rw [nodes_addEdge_of_hasNode _ _ _ _ _ h3 h4, hnodes1, hInv']
  · rw [if_neg hm]
    exact hInv'

theorem mem_dedup_fold (l : List String) :
    ∀ (acc : List String) (x : String), (x ∈ acc ∨ x ∈ l) →
      x ∈ l.foldl (fun acc n => if n ∈ acc then acc else acc ++ [n]) acc := by
  induction l with
  | nil =>
    intro acc x h
    rcases h with h | h
    · exact h
    · cases h
  | cons n l ih =>
    intro acc x h
    rw [List.foldl_cons]
    apply ih
    rcases h with h | h
    · left
      split
      · exact h
      · exact List.mem_append_left _ h
    · rcases List.mem_cons.mp h with rfl | h'
      · left
        split
        · next hin => exact hin
        · exact List.mem_append_right _ (List.mem_singleton.mpr rfl)
      · right
        exact h'

theorem dedup_fold_sub (l : List String) :
    ∀ (acc : List String) (x : String),
      x ∈ l.foldl (fun acc n => if n ∈ acc then acc else acc ++ [n]) acc →
      x ∈ acc ∨ x ∈ l := by
  induction l with
  | nil =>
    intro acc x h
    exact Or.inl h
  | cons n l ih =>
    intro acc x h
    rw [List.foldl_cons] at h
    rcases ih _ x h with h' | h'
    · revert h'
      split
      · intro h'
        exact Or.inl h'
      · intro h'
        rcases List.mem_append.mp h' with h'' | h''
        · exact Or.inl h''
        · exact Or.inr (List.mem_cons.mpr (Or.inl (List.mem_singleton.mp h'')))
    · exact Or.inr (List.mem_cons.mpr (Or.inr h'))

theorem mem_extract_journals_iff (pubs : List Publication) (j : Journal) :
    j ∈ extract_journals pubs ↔ ∃ p ∈ pubs, pyTruthy p.journal_name = true
      ∧ pyTruthy (pyStrip p.journal_name) = true ∧ j.name = p.journal_name := by
  unfold extract_journals
  simp only [List.mem_map]
  constructor
  · rintro ⟨nm, hnm, rfl⟩
    rcases dedup_fold_sub _ [] nm hnm with h | h
    · cases h
    · rcases List.mem_map.mp h with ⟨p, hp, rfl⟩
      have hf := List.mem_filter.mp hp
      simp only [Bool.and_eq_true] at hf
      exact ⟨p, hf.1, hf.2.1, hf.2.2, rfl⟩
  · rintro ⟨p, hp, h1, h2, hj⟩
    refine ⟨p.journal_name, ?_, ?_⟩
    · apply mem_dedup_fold
      right
      exact List.mem_map.mpr ⟨p, List.mem_filter.mpr ⟨hp, by simp [h1, h2]⟩, rfl⟩
    · cases j
      simp only [Journal.mk.injEq]
      exact hj.symm

theorem nodes_type_addNode (g : Graph) (k : String) (a : NodeAttrs)
    (P : Option String → Prop) (h : ∀ n ∈ g.nodes, P n.attrs.type)
    (hty : ∃ v, a.type = some v ∧ P (some v)) :
    ∀ n ∈ (g.addNode k a).nodes, P n.attrs.type := by
  intro n hn
  unfold Graph.addNode at hn
  rcases hty with ⟨v, hv, hPv⟩
  split at hn
  · rcases List.mem_map.mp hn with ⟨x, hx, rfl⟩
    by_cases h2 : (x.key == k) = true
    · rw [if_pos h2]
      show P (mergeAttrs x.attrs a).type
      unfold mergeAttrs updField
      rw [hv]
      exact hPv
    · rw [if_neg h2]
      exact h x hx
  · rcases List.mem_append.mp hn with hx | hx
    · exact h n hx
    · rcases List.mem_singleton.mp hx with rfl
      show P a.type
      rw [hv]
      exact hPv

theorem nodes_type_foldl {α : Type} (key : α → String) (attrs : α → NodeAttrs)
    (P : Option String → Prop) (l : List α) (g : Graph)
    (h : ∀ n ∈ g.nodes, P n.attrs.type)
    (hty : ∀ x ∈ l, ∃ v, (attrs x).type = some v ∧ P (some v)) :
    ∀ n ∈ (l.foldl (fun g x => g.addNode (key x) (attrs x)) g).nodes, P n.attrs.type :=
  foldl_preserve (fun g => ∀ n ∈ g.nodes, P n.attrs.type) _ l g h
    (fun g' x hx h' => nodes_type_addNode g' (key x) (attrs x) P h' (hty x hx))

/-- C10: when every matched publication has a non-blank journal name, every
node the builder produces carries one of the four node types; and dropping the
precondition, a matched publication with a blank journal name makes `add_edge`
auto-create an untyped node keyed by the truncated blank name. -/
theorem C10_node_types :
    (∀ (drugs : List Drug) (pubmed trials : List Publication),
      (∀ p ∈ pubmed ++ trials, (∃ d ∈ drugs, matchK (drugKey d) p = true) →
        pyTruthy p.journal_name = true ∧ pyTruthy (pyStrip p.journal_name) = true) →
      ∀ n ∈ (build_graph drugs pubmed trials).nodes,
        (n.attrs.type = some "drug" ∨ n.attrs.type = some "pubmed"
          ∨ n.attrs.type = some "clinical_trial" ∨ n.attrs.type = some "journal"))
    ∧ (∃ n ∈ blankJournalGraph.nodes, n.key = journalKey "" ∧ n.attrs.type = none) := by
  constructor
  · intro drugs pubmed trials hblank n hn
    unfold build_graph at hn
    rw [nodes_connect _ drugs (pubmed ++ trials)
      (fun d hd => hasNode_add_nodes_drug _ _ _ _ d hd)
      (fun p hp => hasNode_add_nodes_pub _ _ _ _ p hp)
      (fun d hd p hp hm => by
        have hb := hblank p hp ⟨d, hd, hm⟩
        exact hasNode_add_nodes_journal _ _ _ _ ⟨p.journal_name⟩
          ((mem_extract_journals_iff _ _).mpr ⟨p, hp, hb.1, hb.2, rfl⟩))] at hn
    revert n hn
    simp only [add_nodes_to_graph]
    refine nodes_type_foldl (fun j => journalKey j.name) journalNodeAttrs
      (fun t => t = some "drug" ∨ t = some "pubmed" ∨ t = some "clinical_trial" ∨ t = some "journal")
      (extract_journals (pubmed ++ trials)) _ ?_ ?_
    · refine nodes_type_foldl pubKey pubNodeAttrs
        (fun t => t = some "drug" ∨ t = some "pubmed" ∨ t = some "clinical_trial" ∨ t = some "journal")
        (pubmed ++ trials) _ ?_ ?_
      · refine nodes_type_foldl drugKey drugNodeAttrs
          (fun t => t = some "drug" ∨ t = some "pubmed" ∨ t = some "clinical_trial" ∨ t = some "journal")
          drugs Graph.empty ?_ ?_
        · intro n hn
          cases hn
        · intro d _
          exact ⟨"drug", rfl, Or.inl rfl⟩
      · intro p _
        refine ⟨p.source_type.toStr, rfl, ?_⟩
        cases hsrc : p.source_type
        · exact Or.inr (Or.inl (by rw [PublicationType.toStr]))
        · exact Or.inr (Or.inr (Or.inl (by rw [PublicationType.toStr])))
    · intro j _
      exact ⟨"journal", rfl, Or.inr (Or.inr (Or.inr rfl))⟩
  · decide

/-- C10 witness: the precondition holds on the §8 scenario, and the theorem
instantiates to it. -/
theorem C10_witness :
    (∀ p ∈ scenarioPubmed ++ ([] : List Publication),
      (∃ d ∈ scenarioDrugs, matchK (drugKey d) p = true) →
      pyTruthy p.journal_name = true ∧ pyTruthy (pyStrip p.journal_name) = true)
    ∧ (∀ n ∈ (build_graph scenarioDrugs scenarioPubmed []).nodes,
        (n.attrs.type = some "drug" ∨ n.attrs.type = some "pubmed"
          ∨ n.attrs.type = some "clinical_trial" ∨ n.attrs.type = some "journal")) :=
  ⟨by decide, C10_node_types.1 scenarioDrugs scenarioPubmed [] (by decide)⟩

/-- C5 amended: the query selects drug nodes by exact key equality with
`drug_name` as passed (no lower-casing), and when no node matches it returns
the "No journals found" sentinel with count 0 instead of failing. -/
theorem C5_exact_key_sentinel (g : Graph) (s : String)
    (h : g.nodes.filter (fun n => n.attrs.type == some "drug" && n.key == s) = []) :
    find_journals_with_most_mentions_of_drug g s = ([some "No journals found"], 0) := by
  unfold find_journals_with_most_mentions_of_drug find_journals_inner
  rw [h]
  rfl

/-- C5 witness: the mixed-case query on the scenario graph selects nothing and
yields the sentinel. -/
theorem C5_witness :
    scenarioGraph.nodes.filter
        (fun n => n.attrs.type == some "drug" && n.key == "Epinephrine") = []
    ∧ find_journals_with_most_mentions_of_drug scenarioGraph "Epinephrine"
        = ([some "No journals found"], 0) :=
  ⟨by decide, C5_exact_key_sentinel scenarioGraph "Epinephrine" (by decide)⟩

/-! ### Which edges the connection loop creates -/

theorem hasEdgePair_of_mem (g : Graph) (e : Edge) (he : e ∈ g.edges) :
    hasEdgePair g e.src e.tgt = true :=
  List.any_eq_true.mpr ⟨e, he, by simp⟩

/-- One inner pass over the publications: an ordered pair is present afterwards
iff it was present before or the pass generates it, and every pair recorded in
the dedup set stays backed by an edge. -/
theorem connect_pair_inner (d : Drug) (s t : String) :
    ∀ (ps : List Publication) (st : Graph × List (String × String)),
      (∀ pr ∈ st.2, hasEdgePair st.1 pr.1 pr.2 = true) →
      ((hasEdgePair (ps.foldl (connectStep d) st).1 s t = true ↔
         (hasEdgePair st.1 s t = true ∨ ∃ p ∈ ps, matchK (drugKey d) p = true
            ∧ s = drugKey d ∧ (t = pubKey p ∨ t = journalKey p.journal_name)))
       ∧ (∀ pr ∈ (ps.foldl (connectStep d) st).2,
            hasEdgePair (ps.foldl (connectStep d) st).1 pr.1 pr.2 = true)) := by
  intro ps
  induction ps with
  | nil =>
    intro st hseen
    refine ⟨?_, hseen⟩
    simp
  | cons p ps ih =>
    intro st hseen
    rw [List.foldl_cons]
    have hstep : (∀ pr ∈ (connectStep d st p).2,
        hasEdgePair (connectStep d st p).1 pr.1 pr.2 = true)
        ∧ (hasEdgePair (connectStep d st p).1 s t = true ↔
            (hasEdgePair st.1 s t = true ∨ (matchK (drugKey d) p = true ∧ s = drugKey d
              ∧ (t = pubKey p ∨ t = journalKey p.journal_name)))) := by
      unfold connectStep
      by_cases hm : matchK (drugKey d) p = true
      · rw [if_pos hm]
        by_cases hs : (drugKey d, journalKey p.journal_name) ∈ st.2
        · rw [if_pos hs]
          constructor
          · intro pr hpr
            exact hasEdgePair_addEdge_of_mem _ _ _ _ _ _ _ (hseen pr hpr)
          · rw [hasEdgePair_addEdge_iff]
            constructor
            · rintro (h | ⟨rfl, rfl⟩)
              · exact Or.inl h
              · exact Or.inr ⟨hm, rfl, Or.inl rfl⟩
            · rintro (h | ⟨_, rfl, (rfl | rfl)⟩)
              · exact Or.inl h
              · exact Or.inr ⟨rfl, rfl⟩
              · exact Or.inl (hseen _ hs)
        · rw [if_neg hs]
          constructor
          · intro pr hpr
            rcases List.mem_append.mp hpr with hpr' | hpr'
            · exact hasEdgePair_addEdge_of_mem _ _ _ _ _ _ _
                (hasEdgePair_addEdge_of_mem _ _ _ _ _ _ _ (hseen pr hpr'))
            · rcases List.mem_singleton.mp hpr' with rfl
              exact hasEdgePair_addEdge_self _ _ _ _ _
          · rw [hasEdgePair_addEdge_iff, hasEdgePair_addEdge_iff]
            constructor
            · rintro ((h | ⟨rfl, rfl⟩) | ⟨rfl, rfl⟩)
              · exact Or.inl h
              · exact Or.inr ⟨hm, rfl, Or.inl rfl⟩
              · exact Or.inr ⟨hm, rfl, Or.inr rfl⟩
            · rintro (h | ⟨_, rfl, (rfl | rfl)⟩)
              · exact Or.inl (Or.inl h)
              · exact Or.inl (Or.inr ⟨rfl, rfl⟩)
              · exact Or.inr ⟨rfl, rfl⟩
      · rw [if_neg hm]
        refine ⟨hseen, ?_⟩
        constructor
        · exact Or.inl
        · rintro (h | ⟨hm', _, _⟩)
          · exact h
          · exact absurd hm' hm
    rcases ih (connectStep d st p) hstep.1 with ⟨hiff, hseen'⟩
    refine ⟨?_, hseen'⟩
    rw [hiff, hstep.2]
    constructor
    · rintro ((h | hgen) | ⟨q, hq, hgen⟩)
      · exact Or.inl h
      · exact Or.inr ⟨p, List.mem_cons_self p ps, hgen⟩
      · exact Or.inr ⟨q, List.mem_cons_of_mem p hq, hgen⟩
    · rintro (h | ⟨q, hq, hgen⟩)
      · exact Or.inl (Or.inl h)
      · rcases List.mem_cons.mp hq with rfl | hq'
        · exact Or.inl (Or.inr hgen)
        · exact Or.inr ⟨q, hq', hgen⟩

/-- The nested drug loop, as generated pairs. -/
theorem connect_pair_outer (pubs : List Publication) (s t : String) :
    ∀ (ds : List Drug) (st : Graph × List (String × String)),
      (∀ pr ∈ st.2, hasEdgePair st.1 pr.1 pr.2 = true) →
      (hasEdgePair (ds.foldl (fun st d => pubs.foldl (connectStep d) st) st).1 s t = true ↔
        (hasEdgePair st.1 s t = true ∨ ∃ d ∈ ds, ∃ p ∈ pubs, matchK (drugKey d) p = true
          ∧ s = drugKey d ∧ (t = pubKey p ∨ t = journalKey p.journal_name))) := by
  intro ds
  induction ds with
  | nil =>
    intro st _
    simp
  | cons d ds ih =>
    intro st hseen
    rw [List.foldl_cons]
    rcases connect_pair_inner d s t pubs st hseen with ⟨hiff, hseen'⟩
    rw [ih _ hseen', hiff]
    constructor
    · rintro ((h | ⟨p, hp, hgen⟩) | ⟨d', hd', hgen⟩)
      · exact Or.inl h
      · exact Or.inr ⟨d, List.mem_cons_self d ds, p, hp, hgen⟩
      · exact Or.inr ⟨d', List.mem_cons_of_mem d hd', hgen⟩
    · rintro (h | ⟨d', hd', hgen⟩)
      · exact Or.inl (Or.inl h)
      · rcases List.mem_cons.mp hd' with rfl | hd''
        · exact Or.inl (Or.inr hgen)
        · exact Or.inr ⟨d', hd'', hgen⟩

/-- Which ordered pairs carry an edge in a built graph: exactly the
drug-to-publication pairs of a title match, and the drug-to-journal pairs of a
matched publication's journal key. -/
theorem hasEdgePair_build_iff (drugs : List Drug) (pubmed trials : List Publication)
    (s t : String) :
    hasEdgePair (build_graph drugs pubmed trials) s t = true ↔
      ∃ d ∈ drugs, ∃ p ∈ pubmed ++ trials, matchK (drugKey d) p = true
        ∧ s = drugKey d ∧ (t = pubKey p ∨ t = journalKey p.journal_name) := by
  unfold build_graph connect_drugs_to_publications
  have h0 : ∀ pr ∈ ([] : List (String × String)),
      hasEdgePair (add_nodes_to_graph Graph.empty drugs (pubmed ++ trials)
        (extract_journals (pubmed ++ trials))) pr.1 pr.2 = true := by
    intro pr hpr
    cases hpr
  rw [connect_pair_outer (pubmed ++ trials) s t drugs _ h0]
  have hempty : hasEdgePair (add_nodes_to_graph Graph.empty drugs (pubmed ++ trials)
      (extract_journals (pubmed ++ trials))) s t = false := by
    unfold hasEdgePair
    rw [edges_add_nodes_to_graph]
    rfl
  rw [hempty]
  simp

/-- C4 amended: without truncation collisions among publication keys and
between publication and journal keys, a drug→publication edge exists iff the
drug's lower-cased name occurs in the lower-cased title; and the intended
false positive stands: drug "amphetamine" matches the Dextroamphetamine title
and gets the edge. -/
theorem C4_mention_edge_iff (drugs : List Drug) (pubmed trials : List Publication)
    (hnodup : ((pubmed ++ trials).map pubKey).Nodup)
    (hdisj : noPubJournalCollision (pubmed ++ trials)) :
    (∀ d ∈ drugs, ∀ p ∈ pubmed ++ trials,
      (hasEdgePair (build_graph drugs pubmed trials) (drugKey d) (pubKey p) = true
        ↔ matchK (drugKey d) p = true))
    ∧ matchK (drugKey amphetamineDrug) dextroPub = true
    ∧ hasEdgePair (build_graph [amphetamineDrug] [dextroPub] [])
        (drugKey amphetamineDrug) (pubKey dextroPub) = true := by
  refine ⟨?_, by decide, by decide⟩
  intro d hd p hp
  rw [hasEdgePair_build_iff]
  constructor
  · rintro ⟨d', hd', p', hp', hm', hseq, htor⟩
    rcases htor with hte | hte
    · rcases List.inj_on_of_nodup_map hnodup hp hp' hte with rfl
      rw [hseq]
      exact hm'
    · exact absurd hte (hdisj p hp p' hp')
  · intro hm
    exact ⟨d, hd, p, hp, hm, rfl, Or.inl rfl⟩

/-- C4 witness: the amended equivalence instantiated on the scenario inputs. -/
theorem C4_witness :
    (((scenarioPubmed ++ ([] : List Publication)).map pubKey).Nodup
      ∧ noPubJournalCollision (scenarioPubmed ++ []))
    ∧ (hasEdgePair (build_graph scenarioDrugs scenarioPubmed [])
        (drugKey ⟨"A1", "Epinephrine"⟩)
        (pubKey ⟨"1", "Epinephrine use in anaphylaxis", "2020-01-01", "NEJM", .pubmed⟩) = true
      ↔ matchK (drugKey ⟨"A1", "Epinephrine"⟩)
          ⟨"1", "Epinephrine use in anaphylaxis", "2020-01-01", "NEJM", .pubmed⟩ = true) :=
  ⟨⟨by decide, by unfold noPubJournalCollision; decide⟩,
    (C4_mention_edge_iff scenarioDrugs scenarioPubmed [] (by decide)
      (by unfold noPubJournalCollision; decide)).1
      ⟨"A1", "Epinephrine"⟩ (by decide)
      ⟨"1", "Epinephrine use in anaphylaxis", "2020-01-01", "NEJM", .pubmed⟩ (by decide)⟩

theorem hasEdgePair_addEdge_of_ne (g : Graph) (s t : String) (r dm : Option String)
    (a b : String) (h : ¬(a = s ∧ b = t)) :
    hasEdgePair (g.addEdge s t r dm) a b = hasEdgePair g a b := by
  cases hg : hasEdgePair g a b with
  | true =>
    exact (hasEdgePair_addEdge_iff g s t r dm a b).mpr (Or.inl hg)
  | false =>
    cases hg' : hasEdgePair (g.addEdge s t r dm) a b with
    | false => rfl
    | true =>
      rcases (hasEdgePair_addEdge_iff g s t r dm a b).mp hg' with h' | h'
      · rw [hg] at h'
        exact absurd h' (by decide)
      · exact absurd h' h

theorem pairsNodup_connectStep (d : Drug) (st : Graph × List (String × String))
    (p : Publication) (h : pairsNodup st.1) : pairsNodup (connectStep d st p).1 := by
  unfold connectStep
  by_cases hm : matchK (drugKey d) p = true
  · rw [if_pos hm]
    by_cases hs : (drugKey d, journalKey p.journal_name) ∈ st.2
    · rw [if_pos hs]
      exact pairsNodup_addEdge _ _ _ _ _ h
    · rw [if_neg hs]
      exact pairsNodup_addEdge _ _ _ _ _ (pairsNodup_addEdge _ _ _ _ _ h)
  · rw [if_neg hm]
    exact h

theorem pairsNodup_build (drugs : List Drug) (pubmed trials : List Publication) :
    pairsNodup (build_graph drugs pubmed trials) := by
  unfold build_graph connect_drugs_to_publications
  have h0 : pairsNodup (add_nodes_to_graph Graph.empty drugs (pubmed ++ trials)
      (extract_journals (pubmed ++ trials))) := by
    unfold pairsNodup
    rw [edges_add_nodes_to_graph]
    exact List.nodup_nil
  exact foldl_preserve (fun st => pairsNodup st.1) _ drugs
    (add_nodes_to_graph Graph.empty drugs (pubmed ++ trials)
      (extract_journals (pubmed ++ trials)), ([] : List (String × String))) h0
    (fun st d _ h => foldl_preserve (fun st => pairsNodup st.1) (connectStep d) _ st h
      (fun st' p _ h' => pairsNodup_connectStep d st' p h'))

theorem filter_pair_length_le_one (g : Graph) (hnd : pairsNodup g) (s t : String) :
    (g.edges.filter (fun e => e.src == s && e.tgt == t)).length ≤ 1 := by
  cases hex : g.edges.any (fun e => e.src == s && e.tgt == t) with
  | false =>
    have hnil : g.edges.filter (fun e => e.src == s && e.tgt == t) = [] := by
      rw [List.filter_eq_nil_iff]
      intro x hx hcx
      exact absurd (List.any_eq_true.mpr ⟨x, hx, hcx⟩) (by rw [hex]; decide)
    rw [hnil]
    simp
  | true =>
    obtain ⟨e₀, hfil, _, _⟩ := filter_pair_singleton g.edges s t hnd hex
    rw [hfil]
    simp

/-- One `connectStep` preserves the date invariant of a fixed pair and extends
the "no qualifier scanned yet" bookkeeping by the publication just scanned.
The collision-freedom hypothesis is what keeps a later drug→publication
`add_edge` from overwriting the tracked drug→journal edge. -/
theorem connect_date_step (d : Drug) (dk jk : String) (allp : List Publication)
    (hjk : ∃ q ∈ allp, jk = journalKey q.journal_name)
    (hcol : ∀ p ∈ allp, ∀ q ∈ allp, pubKey p ≠ journalKey q.journal_name)
    (pre ps' : List Publication) (p : Publication) (hsplit : allp = pre ++ p :: ps')
    (st : Graph × List (String × String)) (hInv : datePairInv dk jk allp st)
    (hpre : drugKey d = dk → hasEdgePair st.1 dk jk = false →
      ∀ x ∈ pre, ¬(matchK dk x && (journalKey x.journal_name == jk)) = true) :
    datePairInv dk jk allp (connectStep d st p)
    ∧ (drugKey d = dk → hasEdgePair (connectStep d st p).1 dk jk = false →
        ∀ x ∈ pre ++ [p], ¬(matchK dk x && (journalKey x.journal_name == jk)) = true) := by
  obtain ⟨hnd, hsync, hdate⟩ := hInv
  have hpmem : p ∈ allp := by
    rw [hsplit]
    exact List.mem_append_right _ (List.mem_cons_self p ps')
  obtain ⟨q, hq, hjkeq⟩ := hjk
  have hpkne : pubKey p ≠ jk := by
    rw [hjkeq]
    exact hcol p hpmem q hq
  unfold connectStep
  by_cases hm : matchK (drugKey d) p = true
  · rw [if_pos hm]
    have hne1 : ¬(dk = drugKey d ∧ jk = pubKey p) := by
      rintro ⟨_, hj⟩
      exact hpkne hj.symm
    have hne1' : ¬(drugKey d = dk ∧ pubKey p = jk) := by
      rintro ⟨_, hj⟩
      exact hpkne hj
    have hpres1 : hasEdgePair (st.1.addEdge (drugKey d) (pubKey p) (some relLabel)
        (some p.date)) dk jk = hasEdgePair st.1 dk jk :=
      hasEdgePair_addEdge_of_ne st.1 _ _ _ _ dk jk hne1
    have hfilt1 : (st.1.addEdge (drugKey d) (pubKey p) (some relLabel)
        (some p.date)).edges.filter (fun e => e.src == dk && e.tgt == jk)
        = st.1.edges.filter (fun e => e.src == dk && e.tgt == jk) :=
      filter_pair_addEdge_of_ne st.1 _ _ _ _ dk jk hne1'
    have hnd1 : pairsNodup (st.1.addEdge (drugKey d) (pubKey p) (some relLabel)
        (some p.date)) := pairsNodup_addEdge st.1 _ _ _ _ hnd
    by_cases hs : (drugKey d, journalKey p.journal_name) ∈ st.2
    · rw [if_pos hs]
      refine ⟨⟨hnd1, ?_, ?_⟩, ?_⟩
      · rw [hpres1]
        exact hsync
      · intro hp
        rw [hpres1] at hp
        obtain ⟨p₀, h1, h2⟩ := hdate hp
        exact ⟨p₀, h1, by rw [hfilt1]; exact h2⟩
      · intro hdk habs x hx
        rw [hpres1] at habs
        rcases List.mem_append.mp hx with hx' | hx'
        · exact hpre hdk habs x hx'
        · rcases List.mem_singleton.mp hx' with rfl
          simp only [Bool.and_eq_true, beq_iff_eq, not_and]
          intro hqm hqj
          rw [hdk, hqj] at hs
          have := hsync.mp hs
          rw [habs] at this
          cases this
    · rw [if_neg hs]
      by_cases hpair : dk = drugKey d ∧ jk = journalKey p.journal_name
      · obtain ⟨hdke, hjke⟩ := hpair
        have habs0 : hasEdgePair st.1 dk jk = false := by
          cases hpb : hasEdgePair st.1 dk jk with
          | false => rfl
          | true =>
            rw [hdke, hjke] at hsync
            exact absurd (hsync.mpr (by rw [← hdke, ← hjke]; exact hpb)) hs
        have hqp : (matchK dk p && (journalKey p.journal_name == jk)) = true := by
          rw [hdke, hjke]
          simp [hm]
        have hfm : firstMatch dk jk allp = some p := by
          unfold firstMatch
          rw [hsplit, List.find?_append]
          have hnone : pre.find? (fun x => matchK dk x && journalKey x.journal_name == jk)
              = none :=
            List.find?_eq_none.mpr (hpre hdke.symm habs0)
          rw [hnone]
          have hfc : List.find? (fun x => matchK dk x && journalKey x.journal_name == jk)
              (p :: ps') = some p := List.find?_cons_of_pos ps' hqp
          rw [hfc]
          rfl
        refine ⟨⟨pairsNodup_addEdge _ _ _ _ _ hnd1, ?_, ?_⟩, ?_⟩
        · constructor
          · intro _
            rw [hdke, hjke]
            exact hasEdgePair_addEdge_self _ _ _ _ _
          · intro _
            exact List.mem_append_right _ (by rw [hdke, hjke]; exact List.mem_singleton.mpr rfl)
        · intro _
          refine ⟨p, hfm, ?_⟩
          rw [hdke, hjke]
          exact filter_pair_addEdge_self _ _ _ _ _ hnd1
        · intro hdk habs
          rw [hdke, hjke] at habs
          rw [hasEdgePair_addEdge_self _ _ _ _ _] at habs
          cases habs
      · have hne2 : ¬(dk = drugKey d ∧ jk = journalKey p.journal_name) := hpair
        have hne2' : ¬(drugKey d = dk ∧ journalKey p.journal_name = jk) := by
          rintro ⟨h1, h2⟩
          exact hpair ⟨h1.symm, h2.symm⟩
        have hpres2 : hasEdgePair ((st.1.addEdge (drugKey d) (pubKey p) (some relLabel)
            (some p.date)).addEdge (drugKey d) (journalKey p.journal_name) (some relLabel)
            (some p.date)) dk jk = hasEdgePair st.1 dk jk := by
          rw [hasEdgePair_addEdge_of_ne _ _ _ _ _ dk jk hne2, hpres1]
        have hfilt2 : ((st.1.addEdge (drugKey d) (pubKey p) (some relLabel)
            (some p.date)).addEdge (drugKey d) (journalKey p.journal_name) (some relLabel)
            (some p.date)).edges.filter (fun e => e.src == dk && e.tgt == jk)
            = st.1.edges.filter (fun e => e.src == dk && e.tgt == jk) := by
          rw [filter_pair_addEdge_of_ne _ _ _ _ _ dk jk hne2', hfilt1]
        refine ⟨⟨pairsNodup_addEdge _ _ _ _ _ hnd1, ?_, ?_⟩, ?_⟩
        · rw [hpres2]
          constructor
          · intro hmem
            rcases List.mem_append.mp hmem with hmem' | hmem'
            · exact hsync.mp hmem'
            · rcases List.mem_singleton.mp hmem' with heq
              exact absurd (Prod.mk.injEq .. ▸ heq) (by
                rw [Prod.mk.injEq] at heq
                exact absurd ⟨heq.1, heq.2⟩ hne2)
          · intro hp
            exact List.mem_append_left _ (hsync.mpr hp)
        · intro hp
          rw [hpres2] at hp
          obtain ⟨p₀, h1, h2⟩ := hdate hp
          exact ⟨p₀, h1, by rw [hfilt2]; exact h2⟩
        · intro hdk habs x hx
          rw [hpres2] at habs
          rcases List.mem_append.mp hx with hx' | hx'
          · exact hpre hdk habs x hx'
          · rcases List.mem_singleton.mp hx' with rfl
            simp only [Bool.and_eq_true, beq_iff_eq, not_and]
            intro _ hqj
            exact absurd ⟨hdk.symm, hqj.symm⟩ hne2
  · rw [if_neg hm]
    refine ⟨⟨hnd, hsync, hdate⟩, ?_⟩
    intro hdk habs x hx
    rcases List.mem_append.mp hx with hx' | hx'
    · exact hpre hdk habs x hx'
    · rcases List.mem_singleton.mp hx' with rfl
      rw [← hdk]
      simp [hm]

theorem connect_date_fold_inner (d : Drug) (dk jk : String) (allp : List Publication)
    (hjk : ∃ q ∈ allp, jk = journalKey q.journal_name)
    (hcol : ∀ p ∈ allp, ∀ q ∈ allp, pubKey p ≠ journalKey q.journal_name) :
    ∀ (ps pre : List Publication), allp = pre ++ ps →
    ∀ (st : Graph × List (String × String)), datePairInv dk jk allp st →
      (drugKey d = dk → hasEdgePair st.1 dk jk = false →
        ∀ x ∈ pre, ¬(matchK dk x && (journalKey x.journal_name == jk)) = true) →
      datePairInv dk jk allp (ps.foldl (connectStep d) st)
      ∧ (drugKey d = dk → hasEdgePair (ps.foldl (connectStep d) st).1 dk jk = false →
          ∀ x ∈ pre ++ ps, ¬(matchK dk x && (journalKey x.journal_name == jk)) = true) := by
  intro ps
  induction ps with
  | nil =>
    intro pre _ st hInv hpre
    rw [List.foldl_nil]
    refine ⟨hInv, ?_⟩
    intro hdk habs x hx
    exact hpre hdk habs x (by simpa using hx)
  | cons p ps' ih =>
    intro pre hsplit st hInv hpre
    rw [List.foldl_cons]
    obtain ⟨hInv', hpre'⟩ := connect_date_step d dk jk allp hjk hcol pre ps' p hsplit st hInv hpre
    have hsplit' : allp = (pre ++ [p]) ++ ps' := by
      rw [hsplit]
      simp
    obtain ⟨hInvf, hpref⟩ := ih (pre ++ [p]) hsplit' (connectStep d st p) hInv' hpre'
    refine ⟨hInvf, ?_⟩
    intro hdk habs x hx
    apply hpref hdk habs
    simpa using hx

theorem connect_date_fold_outer (dk jk : String) (allp : List Publication)
    (hjk : ∃ q ∈ allp, jk = journalKey q.journal_name)
    (hcol : ∀ p ∈ allp, ∀ q ∈ allp, pubKey p ≠ journalKey q.journal_name) :
    ∀ (ds : List Drug) (st : Graph × List (String × String)),
      datePairInv dk jk allp st →
      datePairInv dk jk allp (ds.foldl (fun st d => allp.foldl (connectStep d) st) st) := by
  intro ds
  induction ds with
  | nil =>
    intro st h
    exact h
  | cons d ds ih =>
    intro st h
    rw [List.foldl_cons]
    apply ih
    exact (connect_date_fold_inner d dk jk allp hjk hcol allp [] rfl st h
      (fun _ _ x hx => absurd hx (List.not_mem_nil x))).1

/-- C3 amended: without publication/journal key truncation collisions, every
(drug, journal) key pair carries at most one edge, and the edge created for a
matched publication's journal carries the date of the first matching
publication in construction order (drugs in input order, publications in
pubmed-then-trials input order) — not the earliest date by calendar value. -/
theorem C3_journal_edge_unique_first_date (drugs : List Drug)
    (pubmed trials : List Publication)
    (hcol : noPubJournalCollision (pubmed ++ trials)) :
    (∀ s t, ((build_graph drugs pubmed trials).edges.filter
        (fun e => e.src == s && e.tgt == t)).length ≤ 1)
    ∧ (∀ d ∈ drugs, ∀ q ∈ pubmed ++ trials, matchK (drugKey d) q = true →
        ∃ p₀, firstMatch (drugKey d) (journalKey q.journal_name) (pubmed ++ trials) = some p₀
          ∧ (build_graph drugs pubmed trials).edges.filter
              (fun e => e.src == drugKey d && e.tgt == journalKey q.journal_name)
            = [⟨drugKey d, journalKey q.journal_name, some relLabel, some p₀.date⟩]) := by
  constructor
  · intro s t
    exact filter_pair_length_le_one _ (pairsNodup_build drugs pubmed trials) s t
  · intro d hd q hq hm
    have hpres : hasEdgePair (build_graph drugs pubmed trials) (drugKey d)
        (journalKey q.journal_name) = true :=
      (hasEdgePair_build_iff drugs pubmed trials _ _).mpr ⟨d, hd, q, hq, hm, rfl, Or.inr rfl⟩
    revert hpres
    unfold build_graph connect_drugs_to_publications
    have h0 : datePairInv (drugKey d) (journalKey q.journal_name) (pubmed ++ trials)
        (add_nodes_to_graph Graph.empty drugs (pubmed ++ trials)
          (extract_journals (pubmed ++ trials)), ([] : List (String × String))) := by
      have hemp : hasEdgePair (add_nodes_to_graph Graph.empty drugs (pubmed ++ trials)
          (extract_journals (pubmed ++ trials))) (drugKey d) (journalKey q.journal_name)
          = false := by
        unfold hasEdgePair
        rw [edges_add_nodes_to_graph]
        rfl
      refine ⟨?_, ?_, ?_⟩
      · unfold pairsNodup
        rw [edges_add_nodes_to_graph]
        exact List.nodup_nil
      · constructor
        · intro hmem
          cases hmem
        · intro hp
          rw [hemp] at hp
          cases hp
      · intro hp
        rw [hemp] at hp
        cases hp
    have hres := connect_date_fold_outer (drugKey d) (journalKey q.journal_name)
      (pubmed ++ trials) ⟨q, hq, rfl⟩ hcol drugs _ h0
    exact hres.2.2

/-- C3 witness: the amended statement instantiated on the scenario inputs. -/
theorem C3_witness :
    noPubJournalCollision (scenarioPubmed ++ ([] : List Publication))
    ∧ (∃ p₀, firstMatch (drugKey ⟨"A1", "Epinephrine"⟩)
          (journalKey (Publication.journal_name
            ⟨"1", "Epinephrine use in anaphylaxis", "2020-01-01", "NEJM", .pubmed⟩))
          (scenarioPubmed ++ []) = some p₀
        ∧ (build_graph scenarioDrugs scenarioPubmed []).edges.filter
            (fun e => e.src == drugKey ⟨"A1", "Epinephrine"⟩
              && e.tgt == journalKey (Publication.journal_name
                ⟨"1", "Epinephrine use in anaphylaxis", "2020-01-01", "NEJM", .pubmed⟩))
          = [⟨drugKey ⟨"A1", "Epinephrine"⟩,
              journalKey (Publication.journal_name
                ⟨"1", "Epinephrine use in anaphylaxis", "2020-01-01", "NEJM", .pubmed⟩),
              some relLabel, some p₀.date⟩]) :=
  ⟨by unfold noPubJournalCollision; decide,
    (C3_journal_edge_unique_first_date scenarioDrugs scenarioPubmed []
      (by unfold noPubJournalCollision; decide)).2
      ⟨"A1", "Epinephrine"⟩ (by decide)
      ⟨"1", "Epinephrine use in anaphylaxis", "2020-01-01", "NEJM", .pubmed⟩ (by decide)
      (by decide)⟩

/-! ### String lemmas for the round trip -/

theorem toNat_ofNat_valid (n : Nat) (h : n.isValidChar) : (Char.ofNat n).toNat = n := by
  unfold Char.ofNat
  rw [dif_pos h]
  unfold Char.ofNatAux Char.toNat
  simp [UInt32.toNat, UInt32.ofNatCore]

theorem toLower_eq_self_of_not (c : Char) (h : ¬(c.toNat ≥ 65 ∧ c.toNat ≤ 90)) :
    c.toLower = c := by
  simp only [Char.toLower]
  rw [if_neg h]

theorem toLower_eq_of (c : Char) (h : c.toNat ≥ 65 ∧ c.toNat ≤ 90) :
    c.toLower = Char.ofNat (c.toNat + 32) := by
  simp only [Char.toLower]
  rw [if_pos h]

theorem charToLower_idem (c : Char) : c.toLower.toLower = c.toLower := by
  by_cases h : c.toNat ≥ 65 ∧ c.toNat ≤ 90
  · rw [toLower_eq_of c h]
    apply toLower_eq_self_of_not
    have hv : (c.toNat + 32).isValidChar := by
      left
      omega
    rw [toNat_ofNat_valid _ hv]
    omega
  · rw [toLower_eq_self_of_not c h]
    exact toLower_eq_self_of_not c h

theorem pyLower_idem (s : String) : pyLower (pyLower s) = pyLower s := by
  unfold pyLower
  apply String.ext
  show (s.data.map Char.toLower).map Char.toLower = s.data.map Char.toLower
  rw [List.map_map]
  apply List.map_congr_left
  intro c _
  exact charToLower_idem c

theorem pyLower_eq_empty_iff (s : String) : pyLower s = "" ↔ s = "" := by
  unfold pyLower
  constructor
  · intro h
    have hd : s.data.map Char.toLower = [] := congrArg String.data h
    exact String.ext (List.map_eq_nil_iff.mp hd)
  · intro h
    rw [h]
    rfl

theorem pyTake_eq_empty_iff (s : String) (n : Nat) (hn : 0 < n) :
    pyTake s n = "" ↔ s = "" := by
  unfold pyTake
  constructor
  · intro h
    have hd : s.data.take n = [] := congrArg String.data h
    rcases List.take_eq_nil_iff.mp hd with h' | h'
    · omega
    · exact String.ext h'
  · intro h
    rw [h]
    apply String.ext
    show (List.take n []) = ([] : List Char)
    exact List.take_nil

/-! ### The node list of a built graph -/

theorem Graph.ext_parts (g : Graph) (A : List Node) (B : List Edge)
    (h1 : g.nodes = A) (h2 : g.edges = B) : g = ⟨A, B⟩ := by
  cases g
  cases h1
  cases h2
  rfl

theorem hasNode_false_of_not_mem (g : Graph) (k : String)
    (h : k ∉ g.nodes.map Node.key) : g.hasNode k = false := by
  cases hb : g.hasNode k with
  | false => rfl
  | true => exact absurd ((hasNode_iff_mem_keys g k).mp hb) h

theorem nodes_foldl_addNode_fresh {α : Type} (key : α → String) (attrs : α → NodeAttrs) :
    ∀ (l : List α) (g : Graph), (l.map key).Nodup →
      (∀ x ∈ l, g.hasNode (key x) = false) →
      (l.foldl (fun g x => g.addNode (key x) (attrs x)) g)
        = ⟨g.nodes ++ l.map (fun x => ⟨key x, attrs x⟩), g.edges⟩ := by
  intro l
  induction l with
  | nil =>
    intro g _ _
    rw [List.foldl_nil, List.map_nil, List.append_nil]
  | cons x l ih =>
    intro g hnd hfresh
    rw [List.foldl_cons]
    simp only [List.map_cons, List.nodup_cons] at hnd
    have hstep : g.addNode (key x) (attrs x) = ⟨g.nodes ++ [⟨key x, attrs x⟩], g.edges⟩ :=
      Graph.ext_parts _ _ _
        (nodes_addNode_fresh g (key x) (attrs x) (hfresh x (List.mem_cons_self x l)))
        (edges_addNode g (key x) (attrs x))
    rw [hstep]
    have hfr : ∀ y ∈ l, (⟨g.nodes ++ [⟨key x, attrs x⟩], g.edges⟩ : Graph).hasNode (key y)
        = false := by
      intro y hy
      apply hasNode_false_of_not_mem
      show key y ∉ (g.nodes ++ [(⟨key x, attrs x⟩ : Node)]).map Node.key
      rw [List.map_append]
      intro hmem
      rcases List.mem_append.mp hmem with hmem' | hmem'
      · have hg : g.hasNode (key y) = true :=
          (hasNode_iff_mem_keys g (key y)).mpr hmem'
        rw [hfresh y (List.mem_cons_of_mem x hy)] at hg
        cases hg
      · simp only [List.map_cons, List.map_nil, List.mem_singleton] at hmem'
        exact hnd.1 (List.mem_map.mpr ⟨y, hy, hmem'⟩)
    have hres := ih ⟨g.nodes ++ [(⟨key x, attrs x⟩ : Node)], g.edges⟩ hnd.2 hfr
    rw [hres]
    simp

/-- Under well-formed inputs the builder's node list is exactly: one drug node
per drug, one publication node per publication (pubmed then trials), one
journal node per extracted journal, in insertion order. -/
theorem build_nodes_closed (drugs : List Drug) (pubmed trials : List Publication)
    (h : wellFormed drugs pubmed trials) :
    (build_graph drugs pubmed trials).nodes
      = drugs.map mkDrugNode ++ (pubmed ++ trials).map mkPubNode
        ++ (extract_journals (pubmed ++ trials)).map mkJournalNode := by
  obtain ⟨hdk, hdne, hatc, hpk, htne, hids, hjnb, hjk, hpm, htr, hdp, hdj, hpj⟩ := h
  unfold build_graph
  rw [nodes_connect _ drugs (pubmed ++ trials)
    (fun d hd => hasNode_add_nodes_drug _ _ _ _ d hd)
    (fun p hp => hasNode_add_nodes_pub _ _ _ _ p hp)
    (fun d hd p hp hm => by
      have hb := hjnb p hp
      exact hasNode_add_nodes_journal _ _ _ _ ⟨p.journal_name⟩
        ((mem_extract_journals_iff _ _).mpr ⟨p, hp, hb.1, hb.2, rfl⟩))]
  simp only [add_nodes_to_graph]
  rw [nodes_foldl_addNode_fresh drugKey drugNodeAttrs drugs Graph.empty hdk
    (fun x _ => rfl)]
  rw [nodes_foldl_addNode_fresh pubKey pubNodeAttrs (pubmed ++ trials) _ hpk ?pubfresh]
  rw [nodes_foldl_addNode_fresh (fun j => journalKey j.name) journalNodeAttrs
    (extract_journals (pubmed ++ trials)) _ ?jnodup ?jfresh]
  · simp only [Graph.empty, List.nil_append]
    rw [List.append_assoc]
    have h1 : drugs.map (fun x => (⟨drugKey x, drugNodeAttrs x⟩ : Node))
        = drugs.map mkDrugNode := List.map_congr_left (fun a _ => rfl)
    have h2 : (pubmed ++ trials).map (fun x => (⟨pubKey x, pubNodeAttrs x⟩ : Node))
        = (pubmed ++ trials).map mkPubNode := List.map_congr_left (fun a _ => rfl)
    have h3 : (extract_journals (pubmed ++ trials)).map
          (fun x => (⟨journalKey x.name, journalNodeAttrs x⟩ : Node))
        = (extract_journals (pubmed ++ trials)).map mkJournalNode :=
      List.map_congr_left (fun a _ => rfl)
    rw [h1, h2, h3, List.append_assoc]
  case pubfresh =>
    intro p hp
    apply hasNode_false_of_not_mem
    intro hmem
    simp only [Graph.empty, List.nil_append, List.map_map, List.mem_map,
      Function.comp] at hmem
    rcases hmem with ⟨d, hd, hkey⟩
    exact hdp d hd p hp hkey
  case jnodup =>
    have : (extract_journals (pubmed ++ trials)).map (fun j => journalKey j.name)
        = (journalNames (pubmed ++ trials)).map journalKey := by
      unfold journalNames
      rw [List.map_map]
      rfl
    rw [this]
    exact hjk
  case jfresh =>
    intro j hj
    have hjn : j.name ∈ journalNames (pubmed ++ trials) := by
      unfold journalNames
      exact List.mem_map.mpr ⟨j, hj, rfl⟩
    apply hasNode_false_of_not_mem
    intro hmem
    simp only [Graph.empty, List.nil_append, List.map_append, List.map_map,
      List.mem_append, List.mem_map, Function.comp] at hmem
    rcases hmem with (⟨d, hd, hkey⟩ | ⟨p, hp, hkey⟩ | ⟨p, hp, hkey⟩)
    · exact hdj d hd j.name hjn hkey
    · exact hpj p (List.mem_append_left _ hp) j.name hjn hkey
    · exact hpj p (List.mem_append_right _ hp) j.name hjn hkey

theorem toStr_injective : Function.Injective PublicationType.toStr := by
  intro a b h
  cases a <;> cases b <;> first
    | rfl
    | exact absurd h (by decide)

theorem pyTruthy_iff (s : String) : pyTruthy s = true ↔ s ≠ "" := by
  unfold pyTruthy
  exact bne_iff_ne

/-- Under well-formed inputs the built graph satisfies every invariant the
codec round trip relies on. -/
theorem exportable_build (drugs : List Drug) (pubmed trials : List Publication)
    (h : wellFormed drugs pubmed trials) :
    Exportable (build_graph drugs pubmed trials) := by
  have hnodes := build_nodes_closed drugs pubmed trials h
  obtain ⟨hdk, hdne, hatc, hpk, htne, hids, hjnb, hjk, hpm, htr, hdp, hdj, hpj⟩ := h
  have hkeysD : (drugs.map mkDrugNode).map Node.key = drugs.map drugKey := by
    rw [List.map_map]
    exact List.map_congr_left (fun a _ => rfl)
  have hkeysP : ∀ l : List Publication, (l.map mkPubNode).map Node.key = l.map pubKey := by
    intro l
    rw [List.map_map]
    exact List.map_congr_left (fun a _ => rfl)
  have hkeysJ : ((extract_journals (pubmed ++ trials)).map mkJournalNode).map Node.key
      = (journalNames (pubmed ++ trials)).map journalKey := by
    unfold journalNames
    rw [List.map_map, List.map_map]
    exact List.map_congr_left (fun a _ => rfl)
  have hjname : ∀ j ∈ extract_journals (pubmed ++ trials), j.name ≠ "" := by
    intro j hj
    obtain ⟨p, hp, h1, _, hn⟩ := (mem_extract_journals_iff _ _).mp hj
    rw [hn]
    exact (pyTruthy_iff _).mp h1
  refine ⟨drugs.map mkDrugNode, pubmed.map mkPubNode, trials.map mkPubNode,
    (extract_journals (pubmed ++ trials)).map mkJournalNode,
    ?hshape, ?hd, ?hpmn, ?hctn, ?hjn, ?hkeys, ?hatcs, ?htids, ?hpairs, ?hedges⟩
  case hshape =>
    rw [hnodes, List.map_append]
    simp [List.append_assoc]
  case hd =>
    intro n hn
    rcases List.mem_map.mp hn with ⟨d, hd, rfl⟩
    refine ⟨⟨d.atccode, rfl⟩, ?_, ?_⟩
    · show drugKey d ≠ ""
      unfold drugKey
      rw [Ne, pyLower_eq_empty_iff]
      exact hdne d hd
    · exact pyLower_idem d.name
  case hpmn =>
    intro n hn
    rcases List.mem_map.mp hn with ⟨p, hp, rfl⟩
    refine ⟨⟨p.id, p.title, p.date, p.journal_name, ?_, rfl⟩, ?_⟩
    · show pubNodeAttrs p = _
      unfold pubNodeAttrs
      rw [hpm p hp]
      rfl
    · show pubKey p ≠ ""
      unfold pubKey
      rw [Ne, pyLower_eq_empty_iff, pyTake_eq_empty_iff _ _ (by omega)]
      exact htne p (List.mem_append_left _ hp)
  case hctn =>
    intro n hn
    rcases List.mem_map.mp hn with ⟨p, hp, rfl⟩
    refine ⟨⟨p.id, p.title, p.date, p.journal_name, ?_, rfl⟩, ?_⟩
    · show pubNodeAttrs p = _
      unfold pubNodeAttrs
      rw [htr p hp]
      rfl
    · show pubKey p ≠ ""
      unfold pubKey
      rw [Ne, pyLower_eq_empty_iff, pyTake_eq_empty_iff _ _ (by omega)]
      exact htne p (List.mem_append_right _ hp)
  case hjn =>
    intro n hn
    rcases List.mem_map.mp hn with ⟨j, hj, rfl⟩
    refine ⟨⟨j.name, rfl, rfl, hjname j hj⟩, ?_⟩
    show journalKey j.name ≠ ""
    unfold journalKey
    rw [Ne, pyTake_eq_empty_iff _ _ (by omega)]
    exact hjname j hj
  case hkeys =>
    rw [hnodes, List.map_append, List.map_append, hkeysD, hkeysP, hkeysJ]
    rw [List.nodup_append, List.nodup_append]
    refine ⟨⟨hdk, hpk, ?_⟩, hjk, ?_⟩
    · intro k hk
      rcases List.mem_map.mp hk with ⟨d, hd, rfl⟩
      intro hmem
      rcases List.mem_map.mp hmem with ⟨p, hp, hkey⟩
      exact hdp d hd p hp hkey.symm
    · intro k hk
      intro hmem
      rcases List.mem_map.mp hmem with ⟨nm, hnm, hkey⟩
      rcases List.mem_append.mp hk with hk' | hk'
      · rcases List.mem_map.mp hk' with ⟨d, hd, rfl⟩
        exact hdj d hd nm hnm hkey.symm
      · rcases List.mem_map.mp hk' with ⟨p, hp, rfl⟩
        exact hpj p hp nm hnm hkey.symm
  case hatcs =>
    have heq : (drugs.map mkDrugNode).map (fun n => n.attrs.atccode)
        = (drugs.map Drug.atccode).map some := by
      rw [List.map_map, List.map_map]
      exact List.map_congr_left (fun a _ => rfl)
    rw [heq]
    exact hatc.map (Option.some_injective String)
  case htids =>
    have heq : ((pubmed.map mkPubNode ++ trials.map mkPubNode).map
          (fun n => (n.attrs.type, n.attrs.id)))
        = ((pubmed ++ trials).map (fun p => (p.source_type, p.id))).map
            (fun q => (some q.1.toStr, some q.2)) := by
      rw [← List.map_append, List.map_map, List.map_map]
      exact List.map_congr_left (fun a _ => rfl)
    rw [heq]
    refine hids.map ?_
    intro a b hab
    rw [Prod.mk.injEq] at hab
    rcases a with ⟨a1, a2⟩
    rcases b with ⟨b1, b2⟩
    simp only at hab
    rw [Prod.mk.injEq]
    exact ⟨toStr_injective (Option.some_injective _ hab.1),
      Option.some_injective _ hab.2⟩
  case hpairs =>
    exact pairsNodup_build drugs pubmed trials
  case hedges =>
    intro e he
    have hpair := hasEdgePair_of_mem _ e he
    rcases (hasEdgePair_build_iff drugs pubmed trials e.src e.tgt).mp hpair
      with ⟨d, hd, p, hp, hm, hseq, htor⟩
    constructor
    · exact ⟨mkDrugNode d, List.mem_map.mpr ⟨d, hd, rfl⟩, hseq⟩
    · rcases htor with hte | hte
      · rcases List.mem_append.mp hp with hp' | hp'
        · exact ⟨mkPubNode p, List.mem_append_left _
            (List.mem_append_left _ (List.mem_map.mpr ⟨p, hp', rfl⟩)), hte⟩
        · exact ⟨mkPubNode p, List.mem_append_left _
            (List.mem_append_right _ (List.mem_map.mpr ⟨p, hp', rfl⟩)), hte⟩
      · have hb := hjnb p hp
        have hjmem : (⟨p.journal_name⟩ : Journal) ∈ extract_journals (pubmed ++ trials) :=
          (mem_extract_journals_iff _ _).mpr ⟨p, hp, hb.1, hb.2, rfl⟩
        exact ⟨mkJournalNode ⟨p.journal_name⟩,
          List.mem_append_right _
            (List.mem_map.mpr ⟨⟨p.journal_name⟩, hjmem, rfl⟩), hte⟩

/-! ### Evaluating the export on an exportable graph -/

theorem exceptBind_ok {α β : Type} (a : α) (f : α → Except String β) :
    (Except.ok a >>= f) = f a := rfl

theorem exportNodeStep_drug (acc : List DrugRec × List PubRec × List PubRec × List JournalRec)
    (n : Node) (c : String) (hc : n.attrs = { type := some "drug", atccode := some c }) :
    exportNodeStep acc n = .ok (acc.1 ++ [toDrugRec n], acc.2) := by
  unfold exportNodeStep toDrugRec
  rw [hc]
  rfl

theorem exportNodeStep_pubmed (acc : List DrugRec × List PubRec × List PubRec × List JournalRec)
    (n : Node) (i ti da j : String)
    (hc : n.attrs = { type := some "pubmed", id := some i, title := some ti, date := some da, journal_name := some j }) :
    exportNodeStep acc n = .ok (acc.1, acc.2.1 ++ [toPubRec "pubmed" n], acc.2.2) := by
  unfold exportNodeStep toPubRec
  rw [hc]
  rfl

theorem exportNodeStep_ct (acc : List DrugRec × List PubRec × List PubRec × List JournalRec)
    (n : Node) (i ti da j : String)
    (hc : n.attrs = { type := some "clinical_trial", id := some i, title := some ti, date := some da, journal_name := some j }) :
    exportNodeStep acc n = .ok (acc.1, acc.2.1, acc.2.2.1 ++ [toPubRec "clinical_trial" n], acc.2.2.2) := by
  unfold exportNodeStep toPubRec
  rw [hc]
  rfl

theorem exportNodeStep_journal (acc : List DrugRec × List PubRec × List PubRec × List JournalRec)
    (n : Node) (nm : String)
    (hc : n.attrs = { type := some "journal", name := some nm }) :
    exportNodeStep acc n = .ok (acc.1, acc.2.1, acc.2.2.1, acc.2.2.2 ++ [toJournalRec n]) := by
  unfold exportNodeStep toJournalRec
  rw [hc]
  rfl

theorem export_fold_drugs :
    ∀ (dN : List Node), (∀ n ∈ dN, isDrugNode n) →
      ∀ acc, dN.foldlM exportNodeStep acc = .ok (acc.1 ++ dN.map toDrugRec, acc.2)
  | [], _, acc => by
    show Except.ok acc = _
    simp
  | n :: l, h, acc => by
    rw [List.foldlM_cons]
    obtain ⟨⟨c, hc⟩, _, _⟩ := h n (List.mem_cons_self n l)
    rw [exportNodeStep_drug acc n c hc, exceptBind_ok]
    rw [export_fold_drugs l (fun x hx => h x (List.mem_cons_of_mem n hx)) _]
    simp

theorem export_fold_pubmed :
    ∀ (pN : List Node), (∀ n ∈ pN, isPubNodeOf "pubmed" n) →
      ∀ acc, pN.foldlM exportNodeStep acc
        = .ok (acc.1, acc.2.1 ++ pN.map (toPubRec "pubmed"), acc.2.2)
  | [], _, acc => by
    show Except.ok acc = _
    simp
  | n :: l, h, acc => by
    rw [List.foldlM_cons]
    obtain ⟨⟨i, ti, da, j, hc, _⟩, _⟩ := h n (List.mem_cons_self n l)
    rw [exportNodeStep_pubmed acc n i ti da j hc, exceptBind_ok]
    rw [export_fold_pubmed l (fun x hx => h x (List.mem_cons_of_mem n hx)) _]
    simp

theorem export_fold_ct :
    ∀ (pN : List Node), (∀ n ∈ pN, isPubNodeOf "clinical_trial" n) →
      ∀ acc, pN.foldlM exportNodeStep acc
        = .ok (acc.1, acc.2.1, acc.2.2.1 ++ pN.map (toPubRec "clinical_trial"), acc.2.2.2)
  | [], _, acc => by
    show Except.ok acc = _
    simp
  | n :: l, h, acc => by
    rw [List.foldlM_cons]
    obtain ⟨⟨i, ti, da, j, hc, _⟩, _⟩ := h n (List.mem_cons_self n l)
    rw [exportNodeStep_ct acc n i ti da j hc, exceptBind_ok]
    rw [export_fold_ct l (fun x hx => h x (List.mem_cons_of_mem n hx)) _]
    simp

theorem export_fold_journals :
    ∀ (jN : List Node), (∀ n ∈ jN, isJournalNode n) →
      ∀ acc, jN.foldlM exportNodeStep acc
        = .ok (acc.1, acc.2.1, acc.2.2.1, acc.2.2.2 ++ jN.map toJournalRec)
  | [], _, acc => by
    show Except.ok acc = _
    simp
  | n :: l, h, acc => by
    rw [List.foldlM_cons]
    obtain ⟨⟨nm, hc, _, _⟩, _⟩ := h n (List.mem_cons_self n l)
    rw [exportNodeStep_journal acc n nm hc, exceptBind_ok]
    rw [export_fold_journals l (fun x hx => h x (List.mem_cons_of_mem n hx)) _]
    simp

theorem find?_key_of_mem_nodup :
    ∀ (l : List Node) (n : Node), n ∈ l → (l.map Node.key).Nodup →
      l.find? (fun m => m.key == n.key) = some n
  | m :: l, n, hmem, hnd => by
    simp only [List.map_cons, List.nodup_cons] at hnd
    rcases List.mem_cons.mp hmem with rfl | hmem'
    · have hres : List.find? (fun m2 => m2.key == n.key) (n :: l) = some n :=
        List.find?_cons_of_pos l (by simp)
      exact hres
    · have hne : (m.key == n.key) = false := by
        cases hb : m.key == n.key with
        | false => rfl
        | true =>
          exfalso
          apply hnd.1
          rw [beq_iff_eq] at hb
          rw [hb]
          exact List.mem_map.mpr ⟨n, hmem', rfl⟩
      have hres : List.find? (fun m2 => m2.key == n.key) (m :: l)
          = List.find? (fun m2 => m2.key == n.key) l :=
        List.find?_cons_of_neg l (by simp [hne])
      rw [hres]
      exact find?_key_of_mem_nodup l n hmem' hnd.2

theorem findNode_of_mem_nodup (G : Graph) (n : Node) (hmem : n ∈ G.nodes)
    (hnd : (G.nodes.map Node.key).Nodup) : G.findNode n.key = some n :=
  find?_key_of_mem_nodup G.nodes n hmem hnd

theorem export_edges_eval (G : Graph) :
    ∀ (eds : List Edge) (acc : List RelRec),
      (∀ e ∈ eds, (∃ sn, G.findNode e.src = some sn ∧ sn.attrs.type = some "drug")
        ∧ (∃ tn, G.findNode e.tgt = some tn
            ∧ (tn.attrs.type = some "pubmed" ∨ tn.attrs.type = some "clinical_trial"
               ∨ tn.attrs.type = some "journal"))) →
      ∃ rels, eds.foldlM (exportEdgeStep G) acc = .ok (acc ++ rels)
        ∧ List.Forall₂ (relMatches G) eds rels
  | [], acc, _ => ⟨[], by show Except.ok acc = _; simp, List.Forall₂.nil⟩
  | e :: eds, acc, h => by
    obtain ⟨⟨sn, hsn, hsnty⟩, ⟨tn, htn, htnty⟩⟩ := h e (List.mem_cons_self e eds)
    have hstep : ∃ r, exportEdgeStep G acc e = .ok (acc ++ [r]) ∧ relMatches G e r := by
      unfold exportEdgeStep
      rw [hsn, htn]
      rcases htnty with hty | hty | hty
      · refine ⟨⟨some ⟨sn.attrs.atccode, some "drug"⟩, some ⟨tn.attrs.id, some "pubmed"⟩,
          e.relationship, e.date_mention⟩, ?_, ?_⟩
        · show Except.ok _ = _
          rw [hsnty, hty]
          rfl
        · exact ⟨rfl, rfl, ⟨sn, hsn, hsnty, rfl⟩,
            ⟨tn, htn, Or.inl ⟨Or.inl hty, by rw [hty]⟩⟩⟩
      · refine ⟨⟨some ⟨sn.attrs.atccode, some "drug"⟩, some ⟨tn.attrs.id, some "clinical_trial"⟩,
          e.relationship, e.date_mention⟩, ?_, ?_⟩
        · show Except.ok _ = _
          rw [hsnty, hty]
          rfl
        · exact ⟨rfl, rfl, ⟨sn, hsn, hsnty, rfl⟩,
            ⟨tn, htn, Or.inl ⟨Or.inr hty, by rw [hty]⟩⟩⟩
      · refine ⟨⟨some ⟨sn.attrs.atccode, some "drug"⟩, some ⟨tn.attrs.name, some "journal"⟩,
          e.relationship, e.date_mention⟩, ?_, ?_⟩
        · show Except.ok _ = _
          rw [hsnty, hty]
          rfl
        · exact ⟨rfl, rfl, ⟨sn, hsn, hsnty, rfl⟩,
            ⟨tn, htn, Or.inr ⟨hty, rfl⟩⟩⟩
    obtain ⟨r, hr, hrm⟩ := hstep
    obtain ⟨rels', hfold, hF⟩ := export_edges_eval G eds (acc ++ [r])
      (fun x hx => h x (List.mem_cons_of_mem e hx))
    refine ⟨r :: rels', ?_, List.Forall₂.cons hrm hF⟩
    rw [List.foldlM_cons, hr, exceptBind_ok, hfold]
    simp

theorem findNode_key (g : Graph) (k : String) (n : Node) (h : g.findNode k = some n) :
    n.key = k := by
  have hp := List.find?_some h
  simpa using hp

theorem findNode_mem (g : Graph) (k : String) (n : Node) (h : g.findNode k = some n) :
    n ∈ g.nodes :=
  List.mem_of_find?_eq_some h

theorem find?_eq_of_unique {α : Type} (p : α → Bool) :
    ∀ (l : List α) (a : α), a ∈ l → p a = true → (∀ b ∈ l, p b = true → b = a) →
      l.find? p = some a
  | b :: l, a, hmem, hpa, huniq => by
    cases hb : p b with
    | true =>
      have hres : List.find? p (b :: l) = some b := List.find?_cons_of_pos l hb
      rw [hres, huniq b (List.mem_cons_self b l) hb]
    | false =>
      have hres : List.find? p (b :: l) = List.find? p l :=
        List.find?_cons_of_neg l (by simp [hb])
      rcases List.mem_cons.mp hmem with rfl | hmem'
      · rw [hpa] at hb
        exact Bool.noConfusion hb
      · rw [hres]
        exact find?_eq_of_unique p l a hmem' hpa
          (fun c hc hpc => huniq c (List.mem_cons_of_mem b hc) hpc)

theorem mem_dN_of_type_drug (dN pmN ctN jN : List Node)
    (hpA : ∀ n ∈ pmN, isPubNodeOf "pubmed" n)
    (hcA : ∀ n ∈ ctN, isPubNodeOf "clinical_trial" n)
    (hjA : ∀ n ∈ jN, isJournalNode n)
    (n : Node) (hmem : n ∈ dN ++ pmN ++ ctN ++ jN) (hty : n.attrs.type = some "drug") :
    n ∈ dN := by
  rcases List.mem_append.mp hmem with h3 | hj
  · rcases List.mem_append.mp h3 with h2 | hc
    · rcases List.mem_append.mp h2 with hd | hp
      · exact hd
      · obtain ⟨⟨i, ti, da, j, hc2, _⟩, _⟩ := hpA n hp
        exact absurd hty (by rw [hc2]; simp)
    · obtain ⟨⟨i, ti, da, j, hc2, _⟩, _⟩ := hcA n hc
      exact absurd hty (by rw [hc2]; simp)
  · obtain ⟨nm, hc2, _, _⟩ := (hjA n hj).1
    exact absurd hty (by rw [hc2]; simp)

theorem mem_pmN_of_type_pubmed (dN pmN ctN jN : List Node)
    (hdA : ∀ n ∈ dN, isDrugNode n)
    (hcA : ∀ n ∈ ctN, isPubNodeOf "clinical_trial" n)
    (hjA : ∀ n ∈ jN, isJournalNode n)
    (n : Node) (hmem : n ∈ dN ++ pmN ++ ctN ++ jN) (hty : n.attrs.type = some "pubmed") :
    n ∈ pmN := by
  rcases List.mem_append.mp hmem with h3 | hj
  · rcases List.mem_append.mp h3 with h2 | hc
    · rcases List.mem_append.mp h2 with hd | hp
      · obtain ⟨⟨c, hc2⟩, _, _⟩ := hdA n hd
        exact absurd hty (by rw [hc2]; simp)
      · exact hp
    · obtain ⟨⟨i, ti, da, j, hc2, _⟩, _⟩ := hcA n hc
      exact absurd hty (by rw [hc2]; simp)
  · obtain ⟨nm, hc2, _, _⟩ := (hjA n hj).1
    exact absurd hty (by rw [hc2]; simp)

theorem mem_ctN_of_type_ct (dN pmN ctN jN : List Node)
    (hdA : ∀ n ∈ dN, isDrugNode n)
    (hpA : ∀ n ∈ pmN, isPubNodeOf "pubmed" n)
    (hjA : ∀ n ∈ jN, isJournalNode n)
    (n : Node) (hmem : n ∈ dN ++ pmN ++ ctN ++ jN)
    (hty : n.attrs.type = some "clinical_trial") :
    n ∈ ctN := by
  rcases List.mem_append.mp hmem with h3 | hj
  · rcases List.mem_append.mp h3 with h2 | hc
    · rcases List.mem_append.mp h2 with hd | hp
      · obtain ⟨⟨c, hc2⟩, _, _⟩ := hdA n hd
        exact absurd hty (by rw [hc2]; simp)
      · obtain ⟨⟨i, ti, da, j, hc2, _⟩, _⟩ := hpA n hp
        exact absurd hty (by rw [hc2]; simp)
    · exact hc
  · obtain ⟨nm, hc2, _, _⟩ := (hjA n hj).1
    exact absurd hty (by rw [hc2]; simp)

theorem resolveSource_eval (g : Graph) (dN pmN ctN jN : List Node)
    (hshape : g.nodes = dN ++ pmN ++ ctN ++ jN)
    (hdA : ∀ n ∈ dN, isDrugNode n)
    (hand : (dN.map (fun n => n.attrs.atccode)).Nodup)
    (sn : Node) (hsnD : sn ∈ dN)
    (hsub : ∀ b ∈ g.nodes, b.attrs.type = some "drug" → b ∈ dN) :
    resolveSource g sn.attrs.atccode (some "drug") = some sn.key := by
  unfold resolveSource
  rw [if_pos (show ((some "drug" : Option String) == some "drug") = true from rfl)]
  have hsnG : sn ∈ g.nodes := by
    rw [hshape]
    exact List.mem_append_left _ (List.mem_append_left _ (List.mem_append_left _ hsnD))
  obtain ⟨⟨c, hcEq⟩, _, _⟩ := hdA sn hsnD
  have hfind : g.nodes.find?
      (fun n => n.attrs.type == some "drug" && n.attrs.atccode == sn.attrs.atccode)
      = some sn := by
    apply find?_eq_of_unique _ g.nodes sn hsnG
    · simp [hcEq]
    · intro b hb hpb
      simp only [Bool.and_eq_true, beq_iff_eq] at hpb
      have hbD : b ∈ dN := hsub b hb hpb.1
      exact List.inj_on_of_nodup_map hand hbD hsnD hpb.2
  rw [hfind]
  rfl

theorem resolveTarget_pub_eval (g : Graph) (dN pmN ctN jN : List Node)
    (hshape : g.nodes = dN ++ pmN ++ ctN ++ jN)
    (hpind : ((pmN ++ ctN).map (fun n => (n.attrs.type, n.attrs.id))).Nodup)
    (ty : String) (hty : ty = "pubmed" ∨ ty = "clinical_trial")
    (tn : Node) (htnP : tn ∈ pmN ++ ctN) (htnty : tn.attrs.type = some ty)
    (hsub : ∀ b ∈ g.nodes, b.attrs.type = some ty → b ∈ pmN ++ ctN) :
    resolveTarget g tn.attrs.id (some ty) = some tn.key := by
  unfold resolveTarget
  have hcond : ((some ty : Option String) == some "pubmed"
      || (some ty : Option String) == some "clinical_trial") = true := by
    rcases hty with rfl | rfl <;> rfl
  rw [if_pos hcond]
  have htnG : tn ∈ g.nodes := by
    rw [hshape]
    rcases List.mem_append.mp htnP with hp | hc
    · exact List.mem_append_left _ (List.mem_append_left _ (List.mem_append_right _ hp))
    · exact List.mem_append_left _ (List.mem_append_right _ hc)
  have hfind : g.nodes.find?
      (fun n => n.attrs.type == some ty && n.attrs.id == tn.attrs.id) = some tn := by
    apply find?_eq_of_unique _ g.nodes tn htnG
    · simp [htnty]
    · intro b hb hpb
      simp only [Bool.and_eq_true, beq_iff_eq] at hpb
      have hbP : b ∈ pmN ++ ctN := hsub b hb hpb.1
      apply List.inj_on_of_nodup_map hpind hbP htnP
      rw [hpb.1, htnty, hpb.2]
  rw [hfind]
  rfl

theorem resolveTarget_journal_eval (g : Graph) (nm : String) (hne : nm ≠ "") :
    resolveTarget g (some nm) (some "journal") = some (pyTake nm 20) := by
  unfold resolveTarget
  rw [if_neg (by decide), if_pos (by decide)]
  show (if (nm == "") = true then none else some (pyTake nm 20)) = some (pyTake nm 20)
  rw [if_neg (by simp [hne])]

theorem loadRelRec_eval (G : Graph) (dN pmN ctN jN : List Node)
    (hshape : G.nodes = dN ++ pmN ++ ctN ++ jN)
    (hdA : ∀ n ∈ dN, isDrugNode n) (hpA : ∀ n ∈ pmN, isPubNodeOf "pubmed" n)
    (hcA : ∀ n ∈ ctN, isPubNodeOf "clinical_trial" n) (hjA : ∀ n ∈ jN, isJournalNode n)
    (hand : (dN.map (fun n => n.attrs.atccode)).Nodup)
    (hpind : ((pmN ++ ctN).map (fun n => (n.attrs.type, n.attrs.id))).Nodup)
    (done : List Edge) (e : Edge) (r : RelRec) (hm : relMatches G e r)
    (hany : done.any (fun x => x.src == e.src && x.tgt == e.tgt) = false) :
    loadRelRec ⟨G.nodes, done⟩ r = ⟨G.nodes, done ++ [e]⟩ := by
  obtain ⟨htyR, hdm, ⟨sn, hsn, hsnty, hrs⟩, ⟨tn, htn, htcase⟩⟩ := hm
  have hsnkey : sn.key = e.src := findNode_key G e.src sn hsn
  have hsnmemG : sn ∈ G.nodes := findNode_mem G e.src sn hsn
  have htnkey : tn.key = e.tgt := findNode_key G e.tgt tn htn
  have htnmemG : tn ∈ G.nodes := findNode_mem G e.tgt tn htn
  have hsnD : sn ∈ dN :=
    mem_dN_of_type_drug dN pmN ctN jN hpA hcA hjA sn (hshape ▸ hsnmemG) hsnty
  have hsubD : ∀ b ∈ Graph.nodes ⟨G.nodes, done⟩, b.attrs.type = some "drug" → b ∈ dN :=
    fun b hb hbt => mem_dN_of_type_drug dN pmN ctN jN hpA hcA hjA b (hshape ▸ hb) hbt
  have hRS : resolveSource ⟨G.nodes, done⟩ ((r.source.getD ⟨none, none⟩).id)
      ((r.source.getD ⟨none, none⟩).type) = some e.src := by
    rw [hrs]
    show resolveSource ⟨G.nodes, done⟩ sn.attrs.atccode (some "drug") = some e.src
    rw [resolveSource_eval ⟨G.nodes, done⟩ dN pmN ctN jN hshape hdA hand sn hsnD hsubD,
      hsnkey]
  have hRT : resolveTarget ⟨G.nodes, done⟩ ((r.target.getD ⟨none, none⟩).id)
      ((r.target.getD ⟨none, none⟩).type) = some e.tgt := by
    rcases htcase with ⟨hty2, hrt⟩ | ⟨hty3, hrt⟩
    · rw [hrt]
      show resolveTarget ⟨G.nodes, done⟩ tn.attrs.id tn.attrs.type = some e.tgt
      rcases hty2 with htyp | htyp
      · rw [htyp, resolveTarget_pub_eval ⟨G.nodes, done⟩ dN pmN ctN jN hshape hpind
          "pubmed" (Or.inl rfl) tn
          (List.mem_append_left _
            (mem_pmN_of_type_pubmed dN pmN ctN jN hdA hcA hjA tn (hshape ▸ htnmemG) htyp))
          htyp
          (fun b hb hbt => List.mem_append_left _
            (mem_pmN_of_type_pubmed dN pmN ctN jN hdA hcA hjA b (hshape ▸ hb) hbt)),
          htnkey]
      · rw [htyp, resolveTarget_pub_eval ⟨G.nodes, done⟩ dN pmN ctN jN hshape hpind
          "clinical_trial" (Or.inr rfl) tn
          (List.mem_append_right _
            (mem_ctN_of_type_ct dN pmN ctN jN hdA hpA hjA tn (hshape ▸ htnmemG) htyp))
          htyp
          (fun b hb hbt => List.mem_append_right _
            (mem_ctN_of_type_ct dN pmN ctN jN hdA hpA hjA b (hshape ▸ hb) hbt)),
          htnkey]
    · have htnJ : tn ∈ jN := by
        have hmem4 := hshape ▸ htnmemG
        rcases List.mem_append.mp hmem4 with h3 | hj
        · exfalso
          rcases List.mem_append.mp h3 with h2 | hc
          · rcases List.mem_append.mp h2 with hd | hp
            · obtain ⟨⟨c, hc2⟩, _, _⟩ := hdA tn hd
              exact absurd hty3 (by rw [hc2]; simp)
            · obtain ⟨⟨i, ti, da, j, hc2, _⟩, _⟩ := hpA tn hp
              exact absurd hty3 (by rw [hc2]; simp)
          · obtain ⟨⟨i, ti, da, j, hc2, _⟩, _⟩ := hcA tn hc
            exact absurd hty3 (by rw [hc2]; simp)
        · exact hj
      obtain ⟨⟨nm, hnEq, hnkey, hnne⟩, _⟩ := hjA tn htnJ
      rw [hrt]
      show resolveTarget ⟨G.nodes, done⟩ tn.attrs.name (some "journal") = some e.tgt
      rw [hnEq]
      show resolveTarget ⟨G.nodes, done⟩ (some nm) (some "journal") = some e.tgt
      rw [resolveTarget_journal_eval ⟨G.nodes, done⟩ nm hnne, ← hnkey, htnkey]
  have hHS : Graph.hasNode ⟨G.nodes, done⟩ e.src = true :=
    (hasNode_iff_mem_keys _ e.src).mpr (List.mem_map.mpr ⟨sn, hsnmemG, hsnkey⟩)
  have hHT : Graph.hasNode ⟨G.nodes, done⟩ e.tgt = true :=
    (hasNode_iff_mem_keys _ e.tgt).mpr (List.mem_map.mpr ⟨tn, htnmemG, htnkey⟩)
  have hts : pyTruthyOpt (some e.src) = true := by
    rw [← hsnkey]
    obtain ⟨_, hkne, _⟩ := hdA sn hsnD
    show pyTruthy sn.key = true
    exact (pyTruthy_iff _).mpr hkne
  have htt : pyTruthyOpt (some e.tgt) = true := by
    rw [← htnkey]
    show pyTruthy tn.key = true
    apply (pyTruthy_iff _).mpr
    have hmem4 := hshape ▸ htnmemG
    rcases List.mem_append.mp hmem4 with h3 | hj
    · rcases List.mem_append.mp h3 with h2 | hc
      · rcases List.mem_append.mp h2 with hd | hp
        · exact (hdA tn hd).2.1
        · exact (hpA tn hp).2
      · exact (hcA tn hc).2
    · exact (hjA tn hj).2
  simp only [loadRelRec]
  rw [hRS, hRT]
  simp only [Option.getD_some, hts, htt, hHS, hHT, Bool.and_self, Bool.true_and, if_true]
  apply Graph.ext_parts
  · exact nodes_addEdge_of_hasNode _ _ _ _ _ hHS hHT
  · rw [edges_addEdge_of_hasNode _ _ _ _ _ hHS hHT]
    have hany' : (Graph.edges ⟨G.nodes, done⟩).any
        (fun x => x.src == e.src && x.tgt == e.tgt) = false := hany
    rw [hany', if_neg (by decide), htyR, hdm]

theorem load_rels_eval (G : Graph) (dN pmN ctN jN : List Node)
    (hshape : G.nodes = dN ++ pmN ++ ctN ++ jN)
    (hdA : ∀ n ∈ dN, isDrugNode n) (hpA : ∀ n ∈ pmN, isPubNodeOf "pubmed" n)
    (hcA : ∀ n ∈ ctN, isPubNodeOf "clinical_trial" n) (hjA : ∀ n ∈ jN, isJournalNode n)
    (hand : (dN.map (fun n => n.attrs.atccode)).Nodup)
    (hpind : ((pmN ++ ctN).map (fun n => (n.attrs.type, n.attrs.id))).Nodup) :
    ∀ (eds : List Edge) (rels : List RelRec) (done : List Edge),
      List.Forall₂ (relMatches G) eds rels →
      ((done ++ eds).map (fun x => (x.src, x.tgt))).Nodup →
      rels.foldl loadRelRec ⟨G.nodes, done⟩ = ⟨G.nodes, done ++ eds⟩
  | [], rels, done, hF, _ => by
    cases hF
    show (⟨G.nodes, done⟩ : Graph) = _
    rw [List.append_nil]
  | e :: eds, rels, done, hF, hnd => by
    cases hF with
    | cons hm hF' =>
      have hpair : (e.src, e.tgt) ∉ done.map (fun x => (x.src, x.tgt)) := by
        have hnd' := hnd
        rw [List.map_append, List.nodup_append] at hnd'
        intro hc
        exact hnd'.2.2 hc (by simp)
      have hany : done.any (fun x => x.src == e.src && x.tgt == e.tgt) = false := by
        cases hb : done.any (fun x => x.src == e.src && x.tgt == e.tgt) with
        | false => rfl
        | true =>
          obtain ⟨x, hx, hpx⟩ := List.any_eq_true.mp hb
          simp only [Bool.and_eq_true, beq_iff_eq] at hpx
          exact absurd (List.mem_map.mpr ⟨x, hx, by rw [hpx.1, hpx.2]⟩) hpair
      rw [List.foldl_cons,
        loadRelRec_eval G dN pmN ctN jN hshape hdA hpA hcA hjA hand hpind done e _ hm hany,
        load_rels_eval G dN pmN ctN jN hshape hdA hpA hcA hjA hand hpind eds _ (done ++ [e])
          hF' (by rw [List.append_assoc, List.singleton_append]; exact hnd),
        List.append_assoc, List.singleton_append]

theorem addNode_fresh_eq (g : Graph) (n : Node) (h : g.hasNode n.key = false) :
    g.addNode n.key n.attrs = ⟨g.nodes ++ [n], g.edges⟩ :=
  Graph.ext_parts _ _ _ (nodes_addNode_fresh g n.key n.attrs h) (edges_addNode g n.key n.attrs)

theorem hasNode_append_false (g : Graph) (ns : List Node) (k : String)
    (h1 : g.hasNode k = false) (h2 : k ∉ ns.map Node.key) :
    Graph.hasNode ⟨g.nodes ++ ns, g.edges⟩ k = false := by
  apply hasNode_false_of_not_mem
  show k ∉ (g.nodes ++ ns).map Node.key
  rw [List.map_append]
  intro hc
  rcases List.mem_append.mp hc with hc1 | hc2
  · exact absurd ((hasNode_iff_mem_keys g k).mpr hc1) (by rw [h1]; exact Bool.false_ne_true)
  · exact h2 hc2

theorem loadDrugRec_eval (g : Graph) (n : Node) (hd : isDrugNode n) :
    loadDrugRec g (toDrugRec n) = .ok (g.addNode n.key n.attrs) := by
  obtain ⟨⟨c, hc⟩, _, hlow⟩ := hd
  unfold loadDrugRec toDrugRec
  show Except.ok (g.addNode (pyLower n.key)
    { type := some "drug", atccode := some (n.attrs.atccode.getD "") }) = _
  rw [hlow, hc]
  rfl

theorem loadPubRec_eval (ty : String) (g : Graph) (n : Node) (hp : isPubNodeOf ty n) :
    loadPubRec ty g (toPubRec ty n) = g.addNode n.key n.attrs := by
  obtain ⟨⟨i, ti, da, j, hc, hkey⟩, _⟩ := hp
  unfold loadPubRec toPubRec
  show g.addNode (pyLower (pyTake ((n.attrs.title).getD "") 20))
      { type := some ty, id := n.attrs.id, title := some ((n.attrs.title).getD ""),
        date := n.attrs.date, journal_name := n.attrs.journal_name } = _
  rw [hc, hkey]
  rfl

theorem loadJournalRec_eval (g : Graph) (n : Node) (hj : isJournalNode n) :
    loadJournalRec g (toJournalRec n) = .ok (g.addNode n.key n.attrs) := by
  obtain ⟨⟨nm, hc, hkey, _⟩, _⟩ := hj
  unfold loadJournalRec toJournalRec
  rw [hc, hkey]

theorem load_drugs_eval :
    ∀ (dN : List Node) (g : Graph),
      (∀ n ∈ dN, isDrugNode n) →
      (∀ n ∈ dN, g.hasNode n.key = false) →
      (dN.map Node.key).Nodup →
      (dN.map toDrugRec).foldlM loadDrugRec g = .ok ⟨g.nodes ++ dN, g.edges⟩
  | [], g, _, _, _ =>
    congrArg Except.ok (Graph.ext_parts g (g.nodes ++ []) g.edges (List.append_nil _).symm rfl)
  | n :: l, g, hshape, hfresh, hnd => by
    simp only [List.map_cons, List.nodup_cons] at hnd
    rw [List.map_cons, List.foldlM_cons,
      loadDrugRec_eval g n (hshape n (List.mem_cons_self n l)), exceptBind_ok,
      addNode_fresh_eq g n (hfresh n (List.mem_cons_self n l))]
    have hne : ∀ x ∈ l, x.key ≠ n.key :=
      fun x hx hc => hnd.1 (hc ▸ List.mem_map.mpr ⟨x, hx, rfl⟩)
    rw [load_drugs_eval l ⟨g.nodes ++ [n], g.edges⟩
      (fun x hx => hshape x (List.mem_cons_of_mem n hx))
      (fun x hx => hasNode_append_false g [n] x.key
        (hfresh x (List.mem_cons_of_mem n hx)) (by simp [hne x hx]))
      hnd.2]
    rw [List.append_assoc, List.singleton_append]

theorem load_pubs_eval (ty : String) :
    ∀ (pN : List Node) (g : Graph),
      (∀ n ∈ pN, isPubNodeOf ty n) →
      (∀ n ∈ pN, g.hasNode n.key = false) →
      (pN.map Node.key).Nodup →
      (pN.map (toPubRec ty)).foldl (loadPubRec ty) g = ⟨g.nodes ++ pN, g.edges⟩
  | [], g, _, _, _ =>
    Graph.ext_parts g (g.nodes ++ []) g.edges (List.append_nil _).symm rfl
  | n :: l, g, hshape, hfresh, hnd => by
    simp only [List.map_cons, List.nodup_cons] at hnd
    rw [List.map_cons, List.foldl_cons,
      loadPubRec_eval ty g n (hshape n (List.mem_cons_self n l)),
      addNode_fresh_eq g n (hfresh n (List.mem_cons_self n l))]
    have hne : ∀ x ∈ l, x.key ≠ n.key :=
      fun x hx hc => hnd.1 (hc ▸ List.mem_map.mpr ⟨x, hx, rfl⟩)
    rw [load_pubs_eval ty l ⟨g.nodes ++ [n], g.edges⟩
      (fun x hx => hshape x (List.mem_cons_of_mem n hx))
      (fun x hx => hasNode_append_false g [n] x.key
        (hfresh x (List.mem_cons_of_mem n hx)) (by simp [hne x hx]))
      hnd.2]
    rw [List.append_assoc, List.singleton_append]

theorem load_journals_eval :
    ∀ (jN : List Node) (g : Graph),
      (∀ n ∈ jN, isJournalNode n) →
      (∀ n ∈ jN, g.hasNode n.key = false) →
      (jN.map Node.key).Nodup →
      (jN.map toJournalRec).foldlM loadJournalRec g = .ok ⟨g.nodes ++ jN, g.edges⟩
  | [], g, _, _, _ =>
    congrArg Except.ok (Graph.ext_parts g (g.nodes ++ []) g.edges (List.append_nil _).symm rfl)
  | n :: l, g, hshape, hfresh, hnd => by
    simp only [List.map_cons, List.nodup_cons] at hnd
    rw [List.map_cons, List.foldlM_cons,
      loadJournalRec_eval g n (hshape n (List.mem_cons_self n l)), exceptBind_ok,
      addNode_fresh_eq g n (hfresh n (List.mem_cons_self n l))]
    have hne : ∀ x ∈ l, x.key ≠ n.key :=
      fun x hx hc => hnd.1 (hc ▸ List.mem_map.mpr ⟨x, hx, rfl⟩)
    rw [load_journals_eval l ⟨g.nodes ++ [n], g.edges⟩
      (fun x hx => hshape x (List.mem_cons_of_mem n hx))
      (fun x hx => hasNode_append_false g [n] x.key
        (hfresh x (List.mem_cons_of_mem n hx)) (by simp [hne x hx]))
      hnd.2]
    rw [List.append_assoc, List.singleton_append]

theorem load_graph_from_json_some (dr : List DrugRec) (pm ct : List PubRec)
    (jl : List JournalRec) (rl : List RelRec) :
    load_graph_from_json ⟨some dr, some ⟨some pm, some ct⟩, some jl, some rl⟩
      = (List.foldlM loadDrugRec Graph.empty dr >>= fun g1 =>
          List.foldlM loadJournalRec
            (ct.foldl (loadPubRec "clinical_trial") (pm.foldl (loadPubRec "pubmed") g1)) jl
          >>= fun g4 => .ok (rl.foldl loadRelRec g4)) := rfl

theorem roundtrip_exportable (G : Graph) (hG : Exportable G) :
    ∃ doc, save_graph_to_json G = .ok doc ∧ load_graph_from_json doc = .ok G := by
  obtain ⟨dN, pmN, ctN, jN, hshape, hdA, hpA, hcA, hjA, hknd, hand, hpind, hpnd, hends⟩ := hG
  have hbig := hknd
  rw [hshape, List.map_append, List.nodup_append] at hbig
  obtain ⟨h123, hndJ, hdisjJ⟩ := hbig
  rw [List.map_append, List.nodup_append] at h123
  obtain ⟨h12, hndCt, hdisjCt⟩ := h123
  rw [List.map_append, List.nodup_append] at h12
  obtain ⟨hndD, hndPm, hdisjPm⟩ := h12
  have hnodes : List.foldlM exportNodeStep ([], [], [], []) G.nodes
      = .ok (dN.map toDrugRec, pmN.map (toPubRec "pubmed"),
             ctN.map (toPubRec "clinical_trial"), jN.map toJournalRec) := by
    have hdrugs : List.foldlM exportNodeStep ([], [], [], []) dN
        = .ok (dN.map toDrugRec, [], [], []) := export_fold_drugs dN hdA _
    have hpm : List.foldlM exportNodeStep (dN.map toDrugRec, [], [], []) pmN
        = .ok (dN.map toDrugRec, pmN.map (toPubRec "pubmed"), [], []) :=
      export_fold_pubmed pmN hpA _
    have hct : List.foldlM exportNodeStep
        (dN.map toDrugRec, pmN.map (toPubRec "pubmed"), [], []) ctN
        = .ok (dN.map toDrugRec, pmN.map (toPubRec "pubmed"),
               ctN.map (toPubRec "clinical_trial"), []) :=
      export_fold_ct ctN hcA _
    have hjl : List.foldlM exportNodeStep
        (dN.map toDrugRec, pmN.map (toPubRec "pubmed"),
         ctN.map (toPubRec "clinical_trial"), []) jN
        = .ok (dN.map toDrugRec, pmN.map (toPubRec "pubmed"),
               ctN.map (toPubRec "clinical_trial"), jN.map toJournalRec) :=
      export_fold_journals jN hjA _
    rw [hshape, List.foldlM_append, List.foldlM_append, List.foldlM_append]
    simp only [hdrugs, exceptBind_ok, hpm, hct, hjl]
  have hedge_hyp : ∀ e ∈ G.edges,
      (∃ sn, G.findNode e.src = some sn ∧ sn.attrs.type = some "drug")
      ∧ (∃ tn, G.findNode e.tgt = some tn
          ∧ (tn.attrs.type = some "pubmed" ∨ tn.attrs.type = some "clinical_trial"
             ∨ tn.attrs.type = some "journal")) := by
    intro e he
    obtain ⟨⟨m, hmD, hsrc⟩, ⟨t, htmem, htgt⟩⟩ := hends e he
    constructor
    · refine ⟨m, ?_, ?_⟩
      · rw [hsrc]
        exact findNode_of_mem_nodup G m
          (by rw [hshape]
              exact List.mem_append_left _
                (List.mem_append_left _ (List.mem_append_left _ hmD))) hknd
      · obtain ⟨⟨c, hc2⟩, _, _⟩ := hdA m hmD
        rw [hc2]
    · refine ⟨t, ?_, ?_⟩
      · rw [htgt]
        refine findNode_of_mem_nodup G t ?_ hknd
        rw [hshape]
        rcases List.mem_append.mp htmem with h2 | hj
        · rcases List.mem_append.mp h2 with hp | hc
          · exact List.mem_append_left _
              (List.mem_append_left _ (List.mem_append_right _ hp))
          · exact List.mem_append_left _ (List.mem_append_right _ hc)
        · exact List.mem_append_right _ hj
      · rcases List.mem_append.mp htmem with h2 | hj
        · rcases List.mem_append.mp h2 with hp | hc
          · obtain ⟨⟨i, ti, da, j, hc2, _⟩, _⟩ := hpA t hp
            exact Or.inl (by rw [hc2])
          · obtain ⟨⟨i, ti, da, j, hc2, _⟩, _⟩ := hcA t hc
            exact Or.inr (Or.inl (by rw [hc2]))
        · obtain ⟨nm, hc2, _, _⟩ := (hjA t hj).1
          exact Or.inr (Or.inr (by rw [hc2]))
  obtain ⟨rels, hrelf, hF⟩ := export_edges_eval G G.edges [] hedge_hyp
  refine ⟨{ drugs := some (dN.map toDrugRec),
            publications := some ⟨some (pmN.map (toPubRec "pubmed")),
                                  some (ctN.map (toPubRec "clinical_trial"))⟩,
            journals := some (jN.map toJournalRec),
            relationships := some rels }, ?_, ?_⟩
  · unfold save_graph_to_json
    rw [hnodes, exceptBind_ok, hrelf, exceptBind_ok]
    rfl
  · have hfreshPm : ∀ n ∈ pmN, Graph.hasNode ⟨dN, []⟩ n.key = false := by
      intro n hn
      apply hasNode_false_of_not_mem
      show n.key ∉ dN.map Node.key
      intro hc
      exact hdisjPm hc (List.mem_map.mpr ⟨n, hn, rfl⟩)
    have hfreshCt : ∀ n ∈ ctN, Graph.hasNode ⟨dN ++ pmN, []⟩ n.key = false := by
      intro n hn
      apply hasNode_false_of_not_mem
      show n.key ∉ (dN ++ pmN).map Node.key
      intro hc
      exact hdisjCt hc (List.mem_map.mpr ⟨n, hn, rfl⟩)
    have hfreshJ : ∀ n ∈ jN, Graph.hasNode ⟨(dN ++ pmN) ++ ctN, []⟩ n.key = false := by
      intro n hn
      apply hasNode_false_of_not_mem
      show n.key ∉ ((dN ++ pmN) ++ ctN).map Node.key
      intro hc
      exact hdisjJ hc (List.mem_map.mpr ⟨n, hn, rfl⟩)
    have hg1 : List.foldlM loadDrugRec Graph.empty (dN.map toDrugRec)
        = .ok (⟨dN, []⟩ : Graph) :=
      load_drugs_eval dN Graph.empty hdA (fun n _ => rfl) hndD
    have hg2 : (pmN.map (toPubRec "pubmed")).foldl (loadPubRec "pubmed")
        (⟨dN, []⟩ : Graph) = (⟨dN ++ pmN, []⟩ : Graph) :=
      load_pubs_eval "pubmed" pmN ⟨dN, []⟩ hpA hfreshPm hndPm
    have hg3 : (ctN.map (toPubRec "clinical_trial")).foldl (loadPubRec "clinical_trial")
        (⟨dN ++ pmN, []⟩ : Graph) = (⟨(dN ++ pmN) ++ ctN, []⟩ : Graph) :=
      load_pubs_eval "clinical_trial" ctN ⟨dN ++ pmN, []⟩ hcA hfreshCt hndCt
    have hg4 : List.foldlM loadJournalRec (⟨(dN ++ pmN) ++ ctN, []⟩ : Graph)
        (jN.map toJournalRec) = .ok (⟨G.nodes, []⟩ : Graph) := by
      rw [hshape]
      exact load_journals_eval jN ⟨(dN ++ pmN) ++ ctN, []⟩ hjA hfreshJ hndJ
    have hg5 : rels.foldl loadRelRec (⟨G.nodes, []⟩ : Graph)
        = (⟨G.nodes, [] ++ G.edges⟩ : Graph) :=
      load_rels_eval G dN pmN ctN jN hshape hdA hpA hcA hjA hand hpind G.edges rels []
        hF (by rw [List.nil_append]; exact hpnd)
    rw [load_graph_from_json_some]
    simp only [hg1, exceptBind_ok, hg2, hg3, hg4, hg5, List.nil_append]

theorem forall₂_mem_right {α β : Type} {R : α → β → Prop} :
    ∀ {l₁ : List α} {l₂ : List β}, List.Forall₂ R l₁ l₂ → ∀ b ∈ l₂, ∃ a ∈ l₁, R a b
  | _, _, List.Forall₂.nil, b, hb => absurd hb (List.not_mem_nil b)
  | _, _, List.Forall₂.cons hr hF, b, hb => by
    rcases List.mem_cons.mp hb with rfl | hb'
    · exact ⟨_, List.mem_cons_self _ _, hr⟩
    · obtain ⟨a, ha, hra⟩ := forall₂_mem_right hF b hb'
      exact ⟨a, List.mem_cons_of_mem _ ha, hra⟩

theorem export_doc_eval (G : Graph) (hG : Exportable G) :
    ∃ doc rels, save_graph_to_json G = .ok doc
      ∧ doc.relationships = some rels
      ∧ List.Forall₂ (relMatches G) G.edges rels := by
  obtain ⟨dN, pmN, ctN, jN, hshape, hdA, hpA, hcA, hjA, hknd, hand, hpind, hpnd, hends⟩ := hG
  have hnodes : List.foldlM exportNodeStep ([], [], [], []) G.nodes
      = .ok (dN.map toDrugRec, pmN.map (toPubRec "pubmed"),
             ctN.map (toPubRec "clinical_trial"), jN.map toJournalRec) := by
    have hdrugs : List.foldlM exportNodeStep ([], [], [], []) dN
        = .ok (dN.map toDrugRec, [], [], []) := export_fold_drugs dN hdA _
    have hpm : List.foldlM exportNodeStep (dN.map toDrugRec, [], [], []) pmN
        = .ok (dN.map toDrugRec, pmN.map (toPubRec "pubmed"), [], []) :=
      export_fold_pubmed pmN hpA _
    have hct : List.foldlM exportNodeStep
        (dN.map toDrugRec, pmN.map (toPubRec "pubmed"), [], []) ctN
        = .ok (dN.map toDrugRec, pmN.map (toPubRec "pubmed"),
               ctN.map (toPubRec "clinical_trial"), []) :=
      export_fold_ct ctN hcA _
    have hjl : List.foldlM exportNodeStep
        (dN.map toDrugRec, pmN.map (toPubRec "pubmed"),
         ctN.map (toPubRec "clinical_trial"), []) jN
        = .ok (dN.map toDrugRec, pmN.map (toPubRec "pubmed"),
               ctN.map (toPubRec "clinical_trial"), jN.map toJournalRec) :=
      export_fold_journals jN hjA _
    rw [hshape, List.foldlM_append, List.foldlM_append, List.foldlM_append]
    simp only [hdrugs, exceptBind_ok, hpm, hct, hjl]
  have hedge_hyp : ∀ e ∈ G.edges,
      (∃ sn, G.findNode e.src = some sn ∧ sn.attrs.type = some "drug")
      ∧ (∃ tn, G.findNode e.tgt = some tn
          ∧ (tn.attrs.type = some "pubmed" ∨ tn.attrs.type = some "clinical_trial"
             ∨ tn.attrs.type = some "journal")) := by
    intro e he
    obtain ⟨⟨m, hmD, hsrc⟩, ⟨t, htmem, htgt⟩⟩ := hends e he
    constructor
    · refine ⟨m, ?_, ?_⟩
      · rw [hsrc]
        exact findNode_of_mem_nodup G m
          (by rw [hshape]
              exact List.mem_append_left _
                (List.mem_append_left _ (List.mem_append_left _ hmD))) hknd
      · obtain ⟨⟨c, hc2⟩, _, _⟩ := hdA m hmD
        rw [hc2]
    · refine ⟨t, ?_, ?_⟩
      · rw [htgt]
        refine findNode_of_mem_nodup G t ?_ hknd
        rw [hshape]
        rcases List.mem_append.mp htmem with h2 | hj
        · rcases List.mem_append.mp h2 with hp | hc
          · exact List.mem_append_left _
              (List.mem_append_left _ (List.mem_append_right _ hp))
          · exact List.mem_append_left _ (List.mem_append_right _ hc)
        · exact List.mem_append_right _ hj
      · rcases List.mem_append.mp htmem with h2 | hj
        · rcases List.mem_append.mp h2 with hp | hc
          · obtain ⟨⟨i, ti, da, j, hc2, _⟩, _⟩ := hpA t hp
            exact Or.inl (by rw [hc2])
          · obtain ⟨⟨i, ti, da, j, hc2, _⟩, _⟩ := hcA t hc
            exact Or.inr (Or.inl (by rw [hc2]))
        · obtain ⟨nm, hc2, _, _⟩ := (hjA t hj).1
          exact Or.inr (Or.inr (by rw [hc2]))
  obtain ⟨rels, hrelf, hF⟩ := export_edges_eval G G.edges [] hedge_hyp
  refine ⟨{ drugs := some (dN.map toDrugRec),
            publications := some ⟨some (pmN.map (toPubRec "pubmed")),
                                  some (ctN.map (toPubRec "clinical_trial"))⟩,
            journals := some (jN.map toJournalRec),
            relationships := some rels }, rels, ?_, rfl, hF⟩
  unfold save_graph_to_json
  rw [hnodes, exceptBind_ok, hrelf, exceptBind_ok]
  rfl

/-- C2: on the §8 scenario the graph has 3 nodes and 2 edges and exactly one
outgoing edge from the drug node to a journal node, yet the query answers
`(["NEJM"], 2)`: the counter initializes a fresh key to `1` and then
increments it, so every journal is credited one more than its edge count.
The claim (count = number of outgoing journal edges = 1 here) is what the
function's own docstring and the spec scenario promise; the code diverges. -/
theorem C2_query_eval :
    scenarioGraph.nodes.length = 3 ∧ scenarioGraph.edges.length = 2
    ∧ ((scenarioGraph.outEdges "epinephrine").filter
        (fun e => (scenarioGraph.findNode e.tgt).any (fun n => n.attrs.type == some "journal"))).length = 1
    ∧ find_journals_with_most_mentions_of_drug scenarioGraph "epinephrine" = ([some "NEJM"], 2)
    ∧ (2 : Nat) ≠ 1 := by
  decide

/-- C8: two publications agreeing on `(id, source_type)` (and date and journal)
but differing in title are unequal under `Publication.__eq__` as written: the
method compares all five fields although its docstring (and the spec) promise
identity on `(id, source)` alone. -/
theorem C8_publication_eq_eval :
    pubTitleOne.id = pubTitleTwo.id ∧ pubTitleOne.source_type = pubTitleTwo.source_type
    ∧ Publication.pyEq pubTitleOne pubTitleTwo = false := by
  decide

/-- C7 counterexample: a document with no `drugs` collection imports
successfully — `load_graph_from_json` returns the graph of the remaining
collections instead of failing with a `ParseError`. -/
theorem C7_counterexample :
    (load_graph_from_json missingDrugsDoc).toOption
      = some ⟨[⟨"t x", { type := some "pubmed", id := some "1", title := some "T x", date := some "2020-01-01", journal_name := some "J" }⟩,
              ⟨"J", { type := some "journal", name := some "J" }⟩], []⟩ := by
  decide

/-- C7 amended: the import path reads every top-level collection through
`dict.get` with an empty default, so a missing collection is indistinguishable
from an empty one and never causes a failure by itself. -/
theorem C7_missing_collections_default_empty (doc : Document) :
    load_graph_from_json { doc with drugs := none }
        = load_graph_from_json { doc with drugs := some [] }
    ∧ load_graph_from_json { doc with publications := none }
        = load_graph_from_json { doc with publications := some ⟨none, none⟩ }
    ∧ load_graph_from_json { doc with journals := none }
        = load_graph_from_json { doc with journals := some [] }
    ∧ load_graph_from_json { doc with relationships := none }
        = load_graph_from_json { doc with relationships := some [] } :=
  ⟨rfl, rfl, rfl, rfl⟩

/-- C3 counterexample: with a truncation collision between a publication key
and a journal key (`"Nejm"[:20].lower() = "nejm"`), the second matching
publication's drug→publication `add_edge` overwrites the attributes of the
existing drug→journal edge, so that edge's `date_mention` is `"2021-05-05"`
although the first matching publication from journal key `"nejm"` (in
construction order) is dated `"2020-01-01"`. -/
theorem C3_counterexample :
    drugKey ⟨"D1", "e"⟩ = "e"
    ∧ journalKey "nejm" = "nejm"
    ∧ ((collisionGraph.edges.filter (fun e => e.src == "e" && e.tgt == "nejm")).map
        (fun e => e.date_mention)) = [some "2021-05-05"]
    ∧ (firstMatch "e" "nejm" (collisionPubs ++ [])).map (fun p => p.date) = some "2020-01-01"
    ∧ some "2021-05-05" ≠ (some "2020-01-01" : Option String) := by
  decide

/-- C4 counterexample: with the same kind of collision, an edge from the drug
key to the *publication key* of the second publication exists (it is the
drug→journal edge of the first publication) although the drug's name does not
occur in the second publication's title, refuting the unconditional
"edge exists only if substring" direction. -/
theorem C4_counterexample :
    collision2Graph.edges.any (fun e => e.src == drugKey ⟨"D1", "x"⟩
      && e.tgt == pubKey ⟨"2", "NEJM", "2021-05-05", "other", .pubmed⟩) = true
    ∧ matchK (drugKey ⟨"D1", "x"⟩) ⟨"2", "NEJM", "2021-05-05", "other", .pubmed⟩ = false := by
  decide

/-- C5 counterexample: the query compares node keys with `drug_name` exactly as
given (no lower-casing), so `"Epinephrine"` finds nothing and yields the
sentinel although the drug node keyed `pyLower "Epinephrine" = "epinephrine"`
exists and the lower-cased query succeeds — refuting the claimed
lower-cased matching. -/
theorem C5_counterexample :
    pyLower "Epinephrine" = "epinephrine"
    ∧ (scenarioGraph.nodes.filter
        (fun n => n.attrs.type == some "drug" && n.key == "epinephrine")).length = 1
    ∧ find_journals_with_most_mentions_of_drug scenarioGraph "Epinephrine"
        = ([some "No journals found"], 0)
    ∧ find_journals_with_most_mentions_of_drug scenarioGraph "epinephrine"
        = ([some "NEJM"], 2) := by
  decide

/-- C6 counterexample: the built scenario graph has an edge whose relationship
is not `"mentioned_in"` (it is `"Référencé dans"`). -/
theorem C6_counterexample :
    ¬ (∀ e ∈ scenarioGraph.edges, e.relationship = some "mentioned_in") := by
  decide

/-- C9 counterexample: for a journal named with more than 20 characters, the
exported journal relationship's `target.id` is the *full* journal name, which
is not a node key of the graph and differs from its own 20-character
truncation — refuting "target.id is itself already the truncated key". -/
theorem C9_counterexample :
    ((save_graph_to_json longJournalGraph).toOption.map (fun d =>
        (d.relationships.getD []).map (fun r =>
          ((r.target.getD ⟨none, none⟩).type, (r.target.getD ⟨none, none⟩).id))))
      = some [(some "pubmed", some "1"), (some "journal", some longJournalName)]
    ∧ longJournalGraph.hasNode longJournalName = false
    ∧ journalKey longJournalName ≠ longJournalName := by
  decide

/-- C1: for every graph built by the Graph Builder from well-formed inputs
(non-empty names, pairwise-distinct keys and natural identities, no truncation
collisions), exporting with `save_graph_to_json` and re-importing with
`load_graph_from_json` both succeed, and the imported graph has the same
node-key set and the same edge set as the built graph, edges compared as
(source key, target key) pairs together with their `relationship` and
`date_mention` attributes. -/
theorem C1_round_trip (drugs : List Drug) (pubmed trials : List Publication)
    (h : wellFormed drugs pubmed trials) :
    ∃ doc G',
      save_graph_to_json (build_graph drugs pubmed trials) = .ok doc
      ∧ load_graph_from_json doc = .ok G'
      ∧ (∀ k, k ∈ G'.nodes.map Node.key
            ↔ k ∈ (build_graph drugs pubmed trials).nodes.map Node.key)
      ∧ (∀ s t rel dm, (⟨s, t, rel, dm⟩ : Edge) ∈ G'.edges
            ↔ (⟨s, t, rel, dm⟩ : Edge) ∈ (build_graph drugs pubmed trials).edges) := by
  obtain ⟨doc, hs, hl⟩ :=
    roundtrip_exportable (build_graph drugs pubmed trials)
      (exportable_build drugs pubmed trials h)
  exact ⟨doc, build_graph drugs pubmed trials, hs, hl,
    fun k => Iff.rfl, fun s t rel dm => Iff.rfl⟩

/-- Witness for C1: the §8 scenario inputs are well-formed and the round trip
holds on them. -/
theorem C1_witness :
    ∃ doc G',
      save_graph_to_json (build_graph scenarioDrugs scenarioPubmed []) = .ok doc
      ∧ load_graph_from_json doc = .ok G'
      ∧ (∀ k, k ∈ G'.nodes.map Node.key
            ↔ k ∈ (build_graph scenarioDrugs scenarioPubmed []).nodes.map Node.key)
      ∧ (∀ s t rel dm, (⟨s, t, rel, dm⟩ : Edge) ∈ G'.edges
            ↔ (⟨s, t, rel, dm⟩ : Edge) ∈ (build_graph scenarioDrugs scenarioPubmed []).edges) :=
  C1_round_trip scenarioDrugs scenarioPubmed [] (by unfold wellFormed; decide)

/-- C9 (amended): in the exported document of a graph built from well-formed
inputs, every journal relationship's `target.id` is the journal node's full
`name` attribute — not the 20-character truncated node key — and the import
side's journal resolution truncates that id to 20 characters, which is exactly
the journal node's key. -/
theorem C9_journal_target_resolution (drugs : List Drug) (pubmed trials : List Publication)
    (h : wellFormed drugs pubmed trials) :
    ∃ doc rels, save_graph_to_json (build_graph drugs pubmed trials) = .ok doc
      ∧ doc.relationships = some rels
      ∧ ∀ r ∈ rels,
          (r.target.getD ⟨none, none⟩).type = some "journal" →
          ∃ nm tn, (r.target.getD ⟨none, none⟩).id = some nm
            ∧ tn ∈ (build_graph drugs pubmed trials).nodes
            ∧ tn.attrs = { type := some "journal", name := some nm }
            ∧ tn.key = pyTake nm 20
            ∧ resolveTarget (build_graph drugs pubmed trials) (some nm) (some "journal")
                = some tn.key := by
  have hexp := exportable_build drugs pubmed trials h
  obtain ⟨doc, rels, hs, hrel, hF⟩ := export_doc_eval _ hexp
  refine ⟨doc, rels, hs, hrel, ?_⟩
  intro r hr hjty
  obtain ⟨e, he, hm⟩ := forall₂_mem_right hF r hr
  obtain ⟨_, _, _, ⟨tn, htn, hcase⟩⟩ := hm
  obtain ⟨dN, pmN, ctN, jN, hshape, hdA, hpA, hcA, hjA, _, _, _, _, _⟩ := hexp
  rcases hcase with ⟨hty2, hrt⟩ | ⟨hty3, hrt⟩
  · exfalso
    rw [hrt] at hjty
    have hjty' : tn.attrs.type = some "journal" := hjty
    rcases hty2 with hp | hp <;> rw [hp] at hjty' <;> simp at hjty'
  · have htnmem : tn ∈ (build_graph drugs pubmed trials).nodes := findNode_mem _ _ _ htn
    have htnJ : tn ∈ jN := by
      have hmem4 := hshape ▸ htnmem
      rcases List.mem_append.mp hmem4 with h3 | hj
      · exfalso
        rcases List.mem_append.mp h3 with h2 | hc
        · rcases List.mem_append.mp h2 with hd | hp
          · obtain ⟨⟨c, hc2⟩, _, _⟩ := hdA tn hd
            exact absurd hty3 (by rw [hc2]; simp)
          · obtain ⟨⟨i, ti, da, j, hc2, _⟩, _⟩ := hpA tn hp
            exact absurd hty3 (by rw [hc2]; simp)
        · obtain ⟨⟨i, ti, da, j, hc2, _⟩, _⟩ := hcA tn hc
          exact absurd hty3 (by rw [hc2]; simp)
      · exact hj
    obtain ⟨⟨nm, hnEq, hnkey, hnne⟩, _⟩ := hjA tn htnJ
    refine ⟨nm, tn, ?_, htnmem, hnEq, hnkey, ?_⟩
    · rw [hrt]
      show tn.attrs.name = some nm
      rw [hnEq]
    · rw [resolveTarget_journal_eval _ nm hnne, hnkey]

/-- Witness for C9: a journal whose name is longer than 20 characters, so the
exported `target.id` (the full name) visibly differs from the truncated node
key that the import reconstructs. -/
theorem C9_witness :
    ∃ doc rels,
      save_graph_to_json (build_graph [⟨"A1", "e"⟩]
        [⟨"1", "e x", "2020-01-01", longJournalName, .pubmed⟩] []) = .ok doc
      ∧ doc.relationships = some rels
      ∧ ∀ r ∈ rels,
          (r.target.getD ⟨none, none⟩).type = some "journal" →
          ∃ nm tn, (r.target.getD ⟨none, none⟩).id = some nm
            ∧ tn ∈ (build_graph [⟨"A1", "e"⟩]
                [⟨"1", "e x", "2020-01-01", longJournalName, .pubmed⟩] []).nodes
            ∧ tn.attrs = { type := some "journal", name := some nm }
            ∧ tn.key = pyTake nm 20
            ∧ resolveTarget (build_graph [⟨"A1", "e"⟩]
                [⟨"1", "e x", "2020-01-01", longJournalName, .pubmed⟩] [])
                (some nm) (some "journal") = some tn.key :=
  C9_journal_target_resolution [⟨"A1", "e"⟩]
    [⟨"1", "e x", "2020-01-01", longJournalName, .pubmed⟩] []
    (by unfold wellFormed; decide)

end DrugGraph
